import Mathlib

/-!
# Verification of the RVU-Calculator data pipeline

A shallow embedding, in Lean 4, of the schema-flexible column detection and
the multi-year diff/classification engine of the RVU-Calculator repository
(`scripts/parse_cms_data.py` and `scripts/build_rvu_timeline.py`), together
with theorems settling the specification claims about them.

Modelling conventions:
* Python `str` is modelled by `String`; `str.lower`/`str.upper`/`str.strip`
  are modelled on the ASCII range (the data processed by these scripts is
  ASCII CSV/JSON text).
* Python `float` is modelled by `PFloat`: an exact rational together with
  the three non-finite values (`inf`, `-inf`, `nan`), with Python's
  equality semantics (`nan == nan` is false).  Rounding of decimal
  literals to binary floating point is not modelled: parsed decimal
  strings denote exact rationals.
* Python `dict` (insertion-ordered, last assignment wins) is modelled by
  an association list together with `dictInsert` / `dictGet`.
* `csv` rows are `List String`; JSON values are the inductive `JValue`.
-/

namespace RVU

/-! ## ASCII string helpers (Python `str` methods) -/

/-- Python whitespace characters stripped by `str.strip()` (ASCII range). -/
def isWsB (c : Char) : Bool :=
  c == ' ' || c == '\t' || c == '\n' || c == '\r' || c.toNat == 11 || c.toNat == 12

/-- ASCII lower-casing of one character (`str.lower` on the data at hand). -/
def asciiLower (c : Char) : Char :=
  if 65 ≤ c.toNat ∧ c.toNat ≤ 90 then Char.ofNat (c.toNat + 32) else c

/-- ASCII upper-casing of one character (`str.upper` on the data at hand). -/
def asciiUpper (c : Char) : Char :=
  if 97 ≤ c.toNat ∧ c.toNat ≤ 122 then Char.ofNat (c.toNat - 32) else c

/-- Drop trailing characters satisfying `p`. -/
def dropTrail (p : Char → Bool) (l : List Char) : List Char :=
  (l.reverse.dropWhile p).reverse

/-- Python `s.strip()`. -/
def pyStrip (s : String) : String :=
  String.mk (dropTrail isWsB (s.data.dropWhile isWsB))

/-- Python `s.lower()` (ASCII). -/
def pyLower (s : String) : String := String.mk (s.data.map asciiLower)

/-- Python `s.upper()` (ASCII). -/
def pyUpper (s : String) : String := String.mk (s.data.map asciiUpper)

/-- Is `c` a decimal digit? -/
def isDigitB (c : Char) : Bool := 48 ≤ c.toNat && c.toNat ≤ 57

/-- Is `c` a lowercase ASCII letter or a digit?  (The character class
`[a-z0-9]` of `normalize_header`.) -/
def isLowerDigitB (c : Char) : Bool :=
  (97 ≤ c.toNat && c.toNat ≤ 122) || isDigitB c

/-- Python `s.isdigit()` for ASCII text: non-empty and all digits. -/
def isDigitStr (s : String) : Bool := s != "" && s.data.all isDigitB

/-- Does `pre` lead (is it a prefix of) `l`?  (Python `s.startswith(pre)`
after both are normalized.) -/
def leadsWith : List Char → List Char → Bool
  | [], _ => true
  | _ :: _, [] => false
  | a :: as, b :: bs => a == b && leadsWith as bs

/-- Does `needle` occur contiguously within `hay`?  (Python `needle in hay`
for strings; the empty needle occurs in everything.) -/
def occursWithin (needle : List Char) : List Char → Bool
  | [] => leadsWith needle []
  | b :: bs => leadsWith needle (b :: bs) || occursWithin needle bs

/-- Python `sub in hay` on strings. -/
def strContains (hay sub : String) : Bool := occursWithin sub.data hay.data

/-- Python `s.startswith(pre)` on strings. -/
def strStartsWith (s pre : String) : Bool := leadsWith pre.data s.data

/-! ## `normalize_header` and `find_column` (`parse_cms_data.py`) -/

/-- `normalize_header`: lower-case, then keep only `[a-z0-9]`. -/
def normalizeHeader (s : String) : String :=
  String.mk ((s.data.map asciiLower).filter isLowerDigitB)

/-- The bidirectional substring test applied by `find_column` to one
normalized header `h` and one normalized pattern `p`:
`pattern_norm in header or header in pattern_norm`. -/
def matchTest (h p : String) : Bool := strContains h p || strContains p h

/-- `find_column`: normalize every header, then for each pattern in order
return the index of the first header whose normalization is non-empty and
matches the normalized pattern bidirectionally. -/
def findColumn (headers : List String) (patterns : List String) : Option Nat :=
  let normalized := headers.map normalizeHeader
  patterns.findSome? fun p =>
    let pn := normalizeHeader p
    normalized.findIdx? fun h => h != "" && matchTest h pn

/-- Modelled from the spec: the column resolver as the claim describes it,
with no skipping of headers whose normalization is empty.  Used only to
compare against `findColumn`. -/
def claimFindColumn (headers : List String) (patterns : List String) : Option Nat :=
  let normalized := headers.map normalizeHeader
  patterns.findSome? fun p =>
    let pn := normalizeHeader p
    normalized.findIdx? fun h => matchTest h pn

/-- The candidate-pattern list used for the non-facility PE column in
`parse_rvu_csv` (source line 96). -/
def rvuPeNonfacPatterns : List String :=
  ["pe rvu non-facility", "pe rvu nonfacility", "penonfacility",
   "non-facility pe", "nonfacility pe"]

/-! ## Python floats

`PFloat` carries an exact rational in the finite case plus the three
non-finite values.  Decimal-to-binary rounding and overflow of very long
digit strings are not modelled; parsed decimal text denotes its exact
rational value. -/

/-- A Python float: finite (exact rational), `inf`, `-inf`, or `nan`. -/
inductive PFloat where
  | fin (q : ℚ)
  | inf
  | ninf
  | nan
  deriving DecidableEq, Repr

namespace PFloat

/-- `math.isfinite`. -/
def isFinite : PFloat → Bool
  | fin _ => true
  | _ => false

/-- Python `==` on floats: `nan` is equal to nothing, `inf`/`-inf` equal
themselves. -/
def pyEq : PFloat → PFloat → Bool
  | fin a, fin b => a == b
  | inf, inf => true
  | ninf, ninf => true
  | _, _ => false

end PFloat

/-- `_nearly_equal` (`build_rvu_timeline.py` lines 147-150): when both
values are finite compare `abs (a - b) ≤ tol`, otherwise Python `==`. -/
def nearlyEqual (a b : PFloat) (tol : ℚ) : Bool :=
  match a, b with
  | .fin x, .fin y => |x - y| ≤ tol
  | x, y => PFloat.pyEq x y

/-! ## Decimal parsing (Python `float(...)` of cleaned strings) -/

/-- Numeric value of a digit character. -/
def digitVal (c : Char) : Nat := c.toNat - 48

/-- Value of a digit string, most significant first. -/
def digitsVal (l : List Char) : Nat := l.foldl (fun a c => a * 10 + digitVal c) 0

/-- Parse the mantissa part of a Python float literal: `digits`, `digits.`,
`digits.digits` or `.digits`; returns the value and the unconsumed rest. -/
def parseMant (l : List Char) : Option (ℚ × List Char) :=
  let d1 := l.takeWhile isDigitB
  let r1 := l.dropWhile isDigitB
  match r1 with
  | '.' :: r2 =>
    let d2 := r2.takeWhile isDigitB
    let r3 := r2.dropWhile isDigitB
    if d1.isEmpty && d2.isEmpty then none
    else some ((digitsVal d1 : ℚ) + (digitsVal d2 : ℚ) / (10 : ℚ) ^ d2.length, r3)
  | _ => if d1.isEmpty then none else some ((digitsVal d1 : ℚ), r1)

/-- Parse an exponent tail (after `e`/`E`): optional sign, then digits. -/
def parseExpTail (l : List Char) : Option ℤ :=
  let core : List Char → Option ℤ := fun ds =>
    if ds.isEmpty then none
    else if ds.all isDigitB then some (digitsVal ds : ℤ) else none
  match l with
  | '+' :: r => core r
  | '-' :: r => (core r).map Neg.neg
  | r => core r

/-- Parse an unsigned Python float literal (mantissa with optional
exponent). -/
def parseUnsignedFloat (l : List Char) : Option ℚ :=
  match parseMant l with
  | none => none
  | some (m, rest) =>
    match rest with
    | [] => some m
    | e :: r =>
      if e == 'e' || e == 'E' then (parseExpTail r).map fun ex => m * (10 : ℚ) ^ ex
      else none

/-- Parse a signed Python float literal (finite forms only).  Underscore
digit separators, accepted by CPython, are not modelled (no claim depends
on them). -/
def parseSignedFloat (l : List Char) : Option ℚ :=
  match l with
  | '+' :: r => parseUnsignedFloat r
  | '-' :: r => (parseUnsignedFloat r).map Neg.neg
  | r => parseUnsignedFloat r

/-- Python `float(s)`: strip, then a signed decimal literal or one of the
case-insensitive forms `inf` / `infinity` / `nan`. -/
def pyFloatOfString (s : String) : Option PFloat :=
  let t := (pyStrip s).data
  let low := t.map asciiLower
  let body : List Char → Bool × List Char := fun l =>
    match l with
    | '-' :: r => (true, r)
    | '+' :: r => (false, r)
    | r => (false, r)
  let (neg, rest) := body low
  if rest = "inf".data ∨ rest = "infinity".data then
    some (if neg then .ninf else .inf)
  else if rest = "nan".data then some .nan
  else (parseSignedFloat t).map .fin

/-- The numeric-cell cleaning step shared (as two identical local
`re.sub(r'[^\d.\-]', '', val)` calls) by `parse_rvu_csv.safe_float` and
`parse_gpci_csv.safe_float`: keep only digits, `.` and `-`. -/
def cleanNumeric (s : String) : String :=
  String.mk (s.data.filter fun c => isDigitB c || c == '.' || c == '-')

/-! ## Python dicts as association lists -/

/-- `d[k] = v` on an insertion-ordered dict: update the first binding of
`k` in place, else append.  (A dict built only through `dictInsert` never
holds two bindings of the same key.) -/
def dictInsert {α : Type} : List (String × α) → String → α → List (String × α)
  | [], k, v => [(k, v)]
  | (k', v') :: rest, k, v =>
    if k' = k then (k, v) :: rest else (k', v') :: dictInsert rest k v

/-- `d.get(k)` on an association list. -/
def dictGet {α : Type} (l : List (String × α)) (k : String) : Option α :=
  (l.find? fun p => p.1 == k).map (·.2)

/-! ## `parse_rvu_csv` (`parse_cms_data.py` lines 122-156)

Rows come from `csv.reader` as lists of strings; resolved column indices
are `Option Nat` (`None` = column unresolved). -/

/-- One normalized RVU record as built by `parse_rvu_csv`. -/
structure RvuRec where
  desc : String
  work_rvu : ℚ
  pe_rvu_fac : ℚ
  pe_rvu_nonfac : ℚ
  mp_rvu : ℚ
  deriving DecidableEq, Repr

/-- `safe_str` of `parse_rvu_csv`: empty when the column is unresolved or
the row is too short, else the stripped cell. -/
def safeStrAt (row : List String) (idx : Option Nat) : String :=
  match idx with
  | none => ""
  | some i =>
    match row.get? i with
    | none => ""
    | some c => pyStrip c

/-- `safe_float` of `parse_rvu_csv`: 0.0 when the column is unresolved,
the row is too short, the cleaned cell is empty, or parsing fails.
Caveat of the exact-rational codomain: CPython `float()` of a cleaned
digit string of roughly 309 or more digits overflows to `inf`, which this
model does not represent — so no finiteness conclusion about the CSV
parser is drawn from this definition alone. -/
def rvuSafeFloatAt (row : List String) (idx : Option Nat) : ℚ :=
  match idx with
  | none => 0
  | some i =>
    match row.get? i with
    | none => 0
    | some cell =>
      let v := cleanNumeric (pyStrip cell)
      if v = "" then 0 else (parseSignedFloat v.data).getD 0

/-- The header-artifact tokens that make `parse_rvu_csv` skip a data row. -/
def rvuArtifact (s : String) : Bool :=
  let l := pyLower s
  l == "cpt" || l == "code" || l == "hcpcs"

/-- The resolved column indices of `parse_rvu_csv` (`cpt_idx` is required,
the others may be unresolved). -/
structure RvuCols where
  cpt : Nat
  desc : Option Nat
  work : Option Nat
  peFac : Option Nat
  peNonfac : Option Nat
  mp : Option Nat

/-- Processing of one data row of `parse_rvu_csv`: skip short rows, skip
empty or header-artifact codes, else insert (overwriting any earlier
binding of the same code).  The source binds `cpt_code` once; here the
pure expression is simply repeated. -/
def processRvuRow (cols : RvuCols) (acc : List (String × RvuRec)) (row : List String) :
    List (String × RvuRec) :=
  if row.length ≤ cols.cpt then acc
  else if pyStrip (row.getD cols.cpt "") = "" ∨
      rvuArtifact (pyStrip (row.getD cols.cpt "")) then acc
  else
    dictInsert acc (pyStrip (row.getD cols.cpt ""))
      { desc := safeStrAt row cols.desc
        work_rvu := rvuSafeFloatAt row cols.work
        pe_rvu_fac := rvuSafeFloatAt row cols.peFac
        pe_rvu_nonfac := rvuSafeFloatAt row cols.peNonfac
        mp_rvu := rvuSafeFloatAt row cols.mp }

/-- The whole data pass of `parse_rvu_csv`. -/
def parseRvuRows (cols : RvuCols) (rows : List (List String)) : List (String × RvuRec) :=
  rows.foldl (processRvuRow cols) []

/-! ## `extract_gpci_headers` (`parse_cms_data.py` lines 214-261) -/

/-- `has_gpci_cols` over a row of normalized cells. -/
def hasGpciCols (cells : List String) : Bool :=
  (cells.any fun c => (strContains c "pw" || strContains c "work") && strContains c "gpci") &&
  (cells.any fun c => strContains c "pe" && strContains c "gpci") &&
  (cells.any fun c =>
    (strContains c "mp" || strContains c "pl" || strContains c "malpractice") &&
    strContains c "gpci")

/-- The two anchor tests on a row of normalized cells: a locality-number
cell and a locality-name cell. -/
def gpciAnchorsRow (cells : List String) : Bool :=
  (cells.any fun c => strStartsWith c "localitynumber" || c == "localityno") &&
  (cells.any fun c => strStartsWith c "localityname")

/-- Cell-by-cell merge of the split two-line header: keep the first row's
stripped cell unless it is empty or purely numeric, in which case use the
second row's stripped cell — falling back to the first again when that is
empty (`b_clean or a_clean`). -/
def mergedCell (a b : String) : String :=
  let aClean := pyStrip a
  let bClean := pyStrip b
  if aClean = "" ∨ isDigitStr aClean then
    (if bClean = "" then aClean else bClean)
  else aClean

/-- Merge two physical header rows position-by-position up to the wider
row's width. -/
def mergePair (row row2 : List String) : List String :=
  (List.range (max row.length row2.length)).map fun j =>
    mergedCell (row.getD j "") (row2.getD j "")

/-- Modelled from the spec: the merge rule as the claim words it — when
the first row's cell is empty or purely numeric, the second row's cell is
used (with no fallback to the first).  Used only to compare against
`mergePair`. -/
def claimMergePair (row row2 : List String) : List String :=
  (List.range (max row.length row2.length)).map fun j =>
    let aClean := pyStrip (row.getD j "")
    if aClean = "" ∨ isDigitStr aClean then pyStrip (row2.getD j "") else aClean

/-- The scanning loop of `extract_gpci_headers`, from physical row `i` up
to (but excluding) `limit`, written with explicit fuel so that it is
structurally recursive (any `fuel ≥ limit - i` gives the loop's value,
and `extractGpciHeaders` supplies `fuel = limit`).  Result:
`(header_start, header_line_count, headers, data_start)`. -/
def scanFrom (rows : List (List String)) (limit : Nat) :
    Nat → Nat → Option (Nat × Nat × List String × Nat)
  | 0, _ => none
  | fuel + 1, i =>
    if i < limit then
      if (rows.getD i []).length < 3 then scanFrom rows limit fuel (i + 1)
      else if gpciAnchorsRow ((rows.getD i []).map normalizeHeader) then
        if hasGpciCols ((rows.getD i []).map normalizeHeader) then
          some (i, 1, rows.getD i [], i + 1)
        else if i + 1 < limit then
          if 3 ≤ (rows.getD (i + 1) []).length ∧
              hasGpciCols ((rows.getD (i + 1) []).map normalizeHeader) then
            some (i, 2, mergePair (rows.getD i []) (rows.getD (i + 1) []), i + 2)
          else scanFrom rows limit fuel (i + 1)
        else scanFrom rows limit fuel (i + 1)
      else scanFrom rows limit fuel (i + 1)
    else none

/-- `extract_gpci_headers rows (max_scan := 80)`: scan
`min max_scan (len rows)` leading rows. -/
def extractGpciHeaders (rows : List (List String)) (maxScan : Nat := 80) :
    Option (Nat × Nat × List String × Nat) :=
  scanFrom rows (min maxScan rows.length) (min maxScan rows.length) 0

/-! ## `derive_state_from_name` and the GPCI data pass -/

/-- The 51-entry state/territory table of `derive_state_from_name`. -/
def stateByName : List (String × String) :=
  [("ALABAMA", "AL"), ("ALASKA", "AK"), ("ARIZONA", "AZ"), ("ARKANSAS", "AR"),
   ("CALIFORNIA", "CA"), ("COLORADO", "CO"), ("CONNECTICUT", "CT"),
   ("DELAWARE", "DE"), ("DISTRICT OF COLUMBIA", "DC"), ("FLORIDA", "FL"),
   ("GEORGIA", "GA"), ("HAWAII", "HI"), ("IDAHO", "ID"), ("ILLINOIS", "IL"),
   ("INDIANA", "IN"), ("IOWA", "IA"), ("KANSAS", "KS"), ("KENTUCKY", "KY"),
   ("LOUISIANA", "LA"), ("MAINE", "ME"), ("MARYLAND", "MD"),
   ("MASSACHUSETTS", "MA"), ("MICHIGAN", "MI"), ("MINNESOTA", "MN"),
   ("MISSISSIPPI", "MS"), ("MISSOURI", "MO"), ("MONTANA", "MT"),
   ("NEBRASKA", "NE"), ("NEVADA", "NV"), ("NEW HAMPSHIRE", "NH"),
   ("NEW JERSEY", "NJ"), ("NEW MEXICO", "NM"), ("NEW YORK", "NY"),
   ("NORTH CAROLINA", "NC"), ("NORTH DAKOTA", "ND"), ("OHIO", "OH"),
   ("OKLAHOMA", "OK"), ("OREGON", "OR"), ("PENNSYLVANIA", "PA"),
   ("RHODE ISLAND", "RI"), ("SOUTH CAROLINA", "SC"), ("SOUTH DAKOTA", "SD"),
   ("TENNESSEE", "TN"), ("TEXAS", "TX"), ("UTAH", "UT"), ("VERMONT", "VT"),
   ("VIRGINIA", "VA"), ("WASHINGTON", "WA"), ("WEST VIRGINIA", "WV"),
   ("WISCONSIN", "WI"), ("WYOMING", "WY")]

/-- Is `c` an ASCII letter? -/
def isAlphaB (c : Char) : Bool :=
  (65 ≤ c.toNat && c.toNat ≤ 90) || (97 ≤ c.toNat && c.toNat ≤ 122)

/-- The characters after the last comma (`s.rsplit(',', 1)[-1]`). -/
def afterLastComma (l : List Char) : List Char :=
  (l.reverse.takeWhile fun c => c != ',').reverse

/-- `derive_state_from_name`: strip trailing `*` markers, accept a
trailing 2-letter comma suffix, else look the cleaned uppercase name up
in the state table. -/
def deriveStateFromName (localityName : String) : String :=
  if localityName = "" then ""
  else
    let cleaned0 := pyStrip localityName
    let cleaned := pyStrip (String.mk (dropTrail (· == '*') cleaned0.data))
    let viaComma : Option String :=
      if cleaned.data.contains ',' then
        let tail := pyUpper (pyStrip (String.mk (afterLastComma cleaned.data)))
        if tail.data.length = 2 ∧ tail.data.all isAlphaB then some tail else none
      else none
    match viaComma with
    | some t => t
    | none =>
      let nameUpper := pyStrip (String.mk ((pyUpper cleaned).data.filter fun c =>
        (65 ≤ c.toNat && c.toNat ≤ 90) || c == ' '))
      (dictGet stateByName nameUpper).getD ""

/-- One normalized GPCI locality record.  The optional `mac` field models
the conditionally-added `"mac"` key. -/
structure GpciRec where
  name : String
  state : String
  locality : String
  work_gpci : ℚ
  pe_gpci : ℚ
  mp_gpci : ℚ
  mac : Option String
  deriving DecidableEq, Repr

/-- The resolved column indices of `parse_gpci_csv` (the five in `required`
are present; `mac` and `state` may be unresolved). -/
structure GpciCols where
  mac : Option Nat
  state : Option Nat
  locNum : Nat
  locName : Nat
  work : Nat
  pe : Nat
  mp : Nat

/-- `safe_float` of `parse_gpci_csv`: `None` when the column is
unresolved, the row is too short, the cleaned cell is empty, or parsing
fails. -/
def gpciSafeFloatAt (row : List String) (idx : Option Nat) : Option ℚ :=
  match idx with
  | none => none
  | some i =>
    match row.get? i with
    | none => none
    | some cell =>
      let v := cleanNumeric (pyStrip cell)
      if v = "" then none else parseSignedFloat v.data

/-- `locality_key`: collapse a numeric locality number through
`str(int(float(...)))`, else keep the raw string.  (`replace('.', '', 1)`
removes only the first dot.) -/
def removeFirstDot : List Char → List Char
  | [] => []
  | '.' :: r => r
  | c :: r => c :: removeFirstDot r

/-- The stable locality key component derived from the locality number. -/
def localityKey (ln : String) : String :=
  if isDigitStr (String.mk (removeFirstDot ln.data)) then
    toString (((parseSignedFloat ln.data).getD 0).floor)
  else ln

/-- `state = safe_str(row, state_idx) if state_idx is not None else ''`. -/
def gpciStateCell (cols : GpciCols) (row : List String) : String :=
  match cols.state with
  | some i => safeStrAt row (some i)
  | none => ""

/-- The state code after the fallback derivation from the locality name. -/
def gpciStateOf (cols : GpciCols) (row : List String) : String :=
  if gpciStateCell cols row = "" then
    deriveStateFromName (safeStrAt row (some cols.locName))
  else gpciStateCell cols row

/-- The stable unique key of one locality row. -/
def gpciKeyOf (cols : GpciCols) (row : List String) : String :=
  if gpciStateOf cols row ≠ "" then
    gpciStateOf cols row ++ "-" ++ localityKey (safeStrAt row (some cols.locNum))
  else
    safeStrAt row (some cols.locName) ++ "-" ++
      localityKey (safeStrAt row (some cols.locNum))

/-- The optional `"mac"` value of one locality row. -/
def gpciMacOf (cols : GpciCols) (row : List String) : Option String :=
  match cols.mac with
  | none => none
  | some mi => if safeStrAt row (some mi) ≠ "" then some (safeStrAt row (some mi)) else none

/-- Processing of one data row of `parse_gpci_csv`; the accumulator is
the dict under construction plus the skip counter. -/
def processGpciRow (cols : GpciCols) (acc : List (String × GpciRec) × Nat)
    (row : List String) : List (String × GpciRec) × Nat :=
  if row = [] then acc
  else if safeStrAt row (some cols.locNum) = "" ∨
      safeStrAt row (some cols.locName) = "" then acc
  else if cols.state.isSome ∧ gpciStateCell cols row = "" then acc
  else if cols.state.isSome ∧ normalizeHeader (gpciStateCell cols row) = "state" then acc
  else
    match gpciSafeFloatAt row (some cols.work), gpciSafeFloatAt row (some cols.pe),
          gpciSafeFloatAt row (some cols.mp) with
    | some w, some pe, some mp =>
      (dictInsert acc.1 (gpciKeyOf cols row)
        { name := safeStrAt row (some cols.locName), state := gpciStateOf cols row,
          locality := safeStrAt row (some cols.locNum),
          work_gpci := w, pe_gpci := pe, mp_gpci := mp, mac := gpciMacOf cols row },
       acc.2)
    | _, _, _ => (acc.1, acc.2 + 1)

/-- The whole data pass of `parse_gpci_csv`: the locality dict and the
final skip count. -/
def parseGpciRows (cols : GpciCols) (rows : List (List String)) :
    List (String × GpciRec) × Nat :=
  rows.foldl (processGpciRow cols) ([], 0)

/-! ## JSON values and `_validate_year_snapshot`
(`build_rvu_timeline.py` lines 114-144) -/

/-- A JSON value as produced by `json.load` (which, in CPython, also
admits `Infinity` / `NaN` literals, hence `PFloat` payloads).  Object
member lists may carry duplicate keys here; `json.load` itself collapses
them last-wins, which `jGet` reproduces. -/
inductive JValue where
  | null
  | bool (b : Bool)
  | num (x : PFloat)
  | str (s : String)
  | arr (xs : List JValue)
  | obj (kvs : List (String × JValue))

/-- Python truthiness of a JSON-shaped value (`nan` and the infinities
are truthy, `0.0` is falsy). -/
def pyTruthy : JValue → Bool
  | .null => false
  | .bool b => b
  | .num (.fin q) => q != 0
  | .num _ => true
  | .str s => s != ""
  | .arr xs => !xs.isEmpty
  | .obj kvs => !kvs.isEmpty

/-- Python `str(...)` of a JSON-shaped value.  The rendering of numbers
and containers is an approximation (Python's shortest-roundtrip float
repr is not modelled); no claim depends on it, only on the `str` and
falsy cases. -/
def jStr : JValue → String
  | .null => "None"
  | .bool b => if b then "True" else "False"
  | .num (.fin q) =>
    if q.den = 1 then toString q.num ++ ".0" else toString q.num ++ "/" ++ toString q.den
  | .num .inf => "inf"
  | .num .ninf => "-inf"
  | .num .nan => "nan"
  | .str s => s
  | .arr _ => "[...]"
  | .obj _ => "\x7b...\x7d"

/-- `row.get(k)` on a JSON object member list: the value of the last
binding of `k` (duplicate keys in JSON text are collapsed last-wins by
`json.load`), or `null`-as-`None` absent sentinel. -/
def jGet (kvs : List (String × JValue)) (k : String) : Option JValue :=
  ((kvs.reverse.find? fun p => p.1 == k).map (·.2))

/-- `str(row.get("desc") or "").strip()`. -/
def descStr (kvs : List (String × JValue)) : String :=
  match jGet kvs "desc" with
  | none => ""
  | some v => pyStrip (if pyTruthy v then jStr v else "")

/-- `_coerce_float`: `None ↦ 0.0`, numbers (and bools, which are `int`s
in Python) pass through, strings go through `float(str(value).strip())`,
anything else raises (`none`). -/
def coerceFloat : Option JValue → Option PFloat
  | none => some (.fin 0)
  | some .null => some (.fin 0)
  | some (.bool b) => some (.fin (if b then 1 else 0))
  | some (.num x) => some x
  | some (.str s) => pyFloatOfString s
  | some (.arr _) => none
  | some (.obj _) => none

/-- One cleaned row of `_validate_year_snapshot`. -/
structure YearRecord where
  desc : String
  work_rvu : PFloat
  pe_rvu_fac : PFloat
  pe_rvu_nonfac : PFloat
  mp_rvu : PFloat
  deriving DecidableEq, Repr

/-- Does the row object lack one of the five required fields
(`REQUIRED_RVU_FIELDS`)? -/
def requiredMissing (kvs : List (String × JValue)) : Bool :=
  !((jGet kvs "desc").isSome && (jGet kvs "work_rvu").isSome &&
    (jGet kvs "pe_rvu_fac").isSome && (jGet kvs "pe_rvu_nonfac").isSome &&
    (jGet kvs "mp_rvu").isSome)

/-- Row-level cleaning of `_validate_year_snapshot`, with `none` both for
the silent skips (non-object row, missing required field) and for the
`_coerce_float` failure (which in the source aborts the whole snapshot —
`validateAux` below raises in exactly that case). -/
def rowCleanOpt : JValue → Option YearRecord
  | .obj kvs =>
    if requiredMissing kvs then none
    else
      match coerceFloat (jGet kvs "work_rvu"), coerceFloat (jGet kvs "pe_rvu_fac"),
            coerceFloat (jGet kvs "pe_rvu_nonfac"), coerceFloat (jGet kvs "mp_rvu") with
      | some w, some pf, some pn, some mp =>
        some { desc := descStr kvs, work_rvu := w, pe_rvu_fac := pf,
               pe_rvu_nonfac := pn, mp_rvu := mp }
      | _, _, _, _ => none
  | _ => none

/-- Does the row trigger the `_coerce_float` `ValueError` (present
required fields but an uncoercible numeric value)? -/
def rowRaises (v : JValue) : Bool :=
  match v with
  | .obj kvs => !requiredMissing kvs && (rowCleanOpt v).isNone
  | _ => false

/-- The row loop of `_validate_year_snapshot`: skip rows with blank codes,
non-object rows and rows missing a required field; abort on an uncoercible
numeric value; else insert under the trimmed upper-cased code. -/
def validateAux : List (String × JValue) → List (String × YearRecord) →
    Except String (List (String × YearRecord))
  | [], acc => .ok acc
  | (code, row) :: rest, acc =>
    if pyStrip code = "" then validateAux rest acc
    else
      match rowCleanOpt row with
      | some rec => validateAux rest (dictInsert acc (pyUpper (pyStrip code)) rec)
      | none =>
        if rowRaises row then .error "Invalid numeric value"
        else validateAux rest acc

/-- `_validate_year_snapshot`: the top level must be a JSON object.
(`json.load` object keys are always strings, so the source's
`isinstance(code, str)` test never fails and is not modelled.) -/
def validateYearSnapshot (data : JValue) : Except String (List (String × YearRecord)) :=
  match data with
  | .obj rows => validateAux rows []
  | _ => .error "expected top-level object (dict)"

/-! ## The timeline merger (`build_rvu_timeline.py` `main`, lines 198-257) -/

/-- A validated per-year snapshot: code ↦ record. -/
abbrev Snapshot := List (String × YearRecord)

/-- The per-year status tag. -/
inductive Status where
  | new
  | modified
  | existing
  deriving DecidableEq, Repr

/-- `_components_changed` (lines 153-157): some of the four numeric
components fails `_nearly_equal`. -/
def componentsChanged (p c : YearRecord) (tol : ℚ) : Bool :=
  !nearlyEqual p.work_rvu c.work_rvu tol ||
  !nearlyEqual p.pe_rvu_fac c.pe_rvu_fac tol ||
  !nearlyEqual p.pe_rvu_nonfac c.pe_rvu_nonfac tol ||
  !nearlyEqual p.mp_rvu c.mp_rvu tol

/-- `per_year[y]`: the command line's `(year, snapshot)` pairs are stably
sorted by year and then loaded into a dict keyed by year, so a year
supplied more than once keeps the snapshot of the last pair carrying it —
which is the last such pair of the original list, sort stability making
the sort invisible to the lookup. -/
def lookupYear (pairs : List (Nat × Snapshot)) (y : Nat) : Option Snapshot :=
  (pairs.reverse.find? fun p => p.1 == y).map (·.2)

/-- `per_year.get(y, {}).get(code)`. -/
def getRow (pairs : List (Nat × Snapshot)) (code : String) (y : Nat) :
    Option YearRecord :=
  (lookupYear pairs y).bind fun s => dictGet s code

/-- The output-years in which `g` has a row, in order. -/
def presentYearsG (g : Nat → Option YearRecord) (years : List Nat) : List Nat :=
  years.filter fun y => (g y).isSome

/-- `canonical_desc`: the description of the latest present output year,
`""` when the code is present in none. -/
def canonicalDescG (g : Nat → Option YearRecord) (years : List Nat) : String :=
  match (presentYearsG g years).getLast? with
  | none => ""
  | some ly =>
    match g ly with
    | some r => r.desc
    | none => ""

/-- The `desc_overrides` accumulation: a present year's description is
recorded iff the canonical description and the year's own description are
both non-empty and differ. -/
def overridesListG (canon : String) (g : Nat → Option YearRecord) (years : List Nat) :
    List (Nat × String) :=
  years.filterMap fun y =>
    match g y with
    | none => none
    | some r => if canon ≠ "" ∧ r.desc ≠ "" ∧ r.desc ≠ canon then some (y, r.desc) else none

/-- One value column: the component where present, `null` where absent. -/
def valueList (f : YearRecord → PFloat) (g : Nat → Option YearRecord)
    (years : List Nat) : List (Option PFloat) :=
  years.map fun y => (g y).map f

/-- The status assigned to one present year given the previous-present
record (`None` = no previous present year). -/
def statusOf (prev : Option YearRecord) (r : YearRecord) (tol : ℚ) : Status :=
  match prev with
  | none => .new
  | some p =>
    if componentsChanged p r tol || p.desc != r.desc then .modified else .existing

/-- The status column, threading the previous-present record through the
ascending year loop (absent years leave it untouched). -/
def statusListAux (g : Nat → Option YearRecord) (tol : ℚ)
    (prev : Option YearRecord) : List Nat → List (Option Status)
  | [] => []
  | y :: ys =>
    match g y with
    | none => none :: statusListAux g tol prev ys
    | some r => some (statusOf prev r tol) :: statusListAux g tol (some r) ys

/-- The record of the most recent present year of `ys` (used to phrase
what `prev_row` holds). -/
def lastPresentRow (g : Nat → Option YearRecord) (ys : List Nat) :
    Option YearRecord :=
  (ys.filterMap g).getLast?

/-- One per-code timeline entry. -/
structure CodeEntry where
  desc : String
  descOverrides : List (Nat × String)
  work_rvu : List (Option PFloat)
  pe_rvu_fac : List (Option PFloat)
  pe_rvu_nonfac : List (Option PFloat)
  mp_rvu : List (Option PFloat)
  status : List (Option Status)
  deriving DecidableEq, Repr

/-- The per-code construction of `main`'s loop body, parameterized by the
year ↦ row lookup.  The source writes into pre-allocated slots at
`years_index[y]`; over the (strictly ascending, duplicate-free) output
year range that equals building each column in loop order. -/
def buildEntryG (g : Nat → Option YearRecord) (years : List Nat) (tol : ℚ) :
    CodeEntry :=
  let canon := canonicalDescG g years
  { desc := canon
    descOverrides := overridesListG canon g years
    work_rvu := valueList (·.work_rvu) g years
    pe_rvu_fac := valueList (·.pe_rvu_fac) g years
    pe_rvu_nonfac := valueList (·.pe_rvu_nonfac) g years
    mp_rvu := valueList (·.mp_rvu) g years
    status := statusListAux g tol none years }

/-- The timeline entry of one code. -/
def buildCodeEntry (pairs : List (Nat × Snapshot)) (years : List Nat) (tol : ℚ)
    (code : String) : CodeEntry :=
  buildEntryG (getRow pairs code) years tol

/-- `all_codes`: the set of codes of all loaded snapshots (also those of
input years outside the output range). -/
def allCodes (pairs : List (Nat × Snapshot)) : List String :=
  (((pairs.map (·.1)).dedup.map fun y =>
    ((lookupYear pairs y).getD []).map (·.1)).flatten).dedup

/-- `sorted(all_codes)`. -/
def sortedAllCodes (pairs : List (Nat × Snapshot)) : List String :=
  (allCodes pairs).mergeSort (fun a b => a ≤ b)

/-- `codes_out`: one entry per code, in sorted code order. -/
def timelineCodes (pairs : List (Nat × Snapshot)) (years : List Nat) (tol : ℚ) :
    List (String × CodeEntry) :=
  (sortedAllCodes pairs).map fun c => (c, buildCodeEntry pairs years tol c)

/-- `meta.total_codes = len(codes_out)`. -/
def totalCodes (pairs : List (Nat × Snapshot)) (years : List Nat) (tol : ℚ) : Nat :=
  (timelineCodes pairs years tol).length

/-! ## Helper predicates used to state the header-scanner claims -/

/-- Row `i` carries both anchor cells and is long enough to be tested. -/
def rowAnchored (rows : List (List String)) (i : Nat) : Prop :=
  3 ≤ (rows.getD i []).length ∧
  gpciAnchorsRow ((rows.getD i []).map normalizeHeader) = true

/-- Row `i` is a single-line header: anchors plus all GPCI index columns. -/
def singleTrigger (rows : List (List String)) (i : Nat) : Prop :=
  rowAnchored rows i ∧ hasGpciCols ((rows.getD i []).map normalizeHeader) = true

/-- Rows `i, i+1` are a split header pair: anchors without index columns
on row `i`, index columns on the immediately following row, which must
still lie inside the scan window and have at least 3 cells. -/
def pairTrigger (rows : List (List String)) (limit i : Nat) : Prop :=
  rowAnchored rows i ∧
  hasGpciCols ((rows.getD i []).map normalizeHeader) = false ∧
  i + 1 < limit ∧
  3 ≤ (rows.getD (i + 1) []).length ∧
  hasGpciCols ((rows.getD (i + 1) []).map normalizeHeader) = true

/-- The record of the previous present year as tracked by the status
loop: the last present record of the already-consumed years, else the
incoming tracker value. -/
def lastPresentOr (g : Nat → Option YearRecord) (ys : List Nat)
    (prev : Option YearRecord) : Option YearRecord :=
  match (ys.filterMap g).getLast? with
  | some p => some p
  | none => prev

/-- The last valid occurrence of cleaned code `k` in the raw snapshot
object: scanning from the end, the first row whose trimmed key is
non-empty, upper-cases to `k`, and passes row validation. -/
def lastWins (data : List (String × JValue)) (k : String) : Option YearRecord :=
  data.reverse.findSome? fun p =>
    if pyStrip p.1 ≠ "" ∧ pyUpper (pyStrip p.1) = k then rowCleanOpt p.2 else none

/-- A well-formed split two-line GPCI header (concrete example input). -/
def gpciExampleRows : List (List String) :=
  [["Locality Number", "Locality Name", "zzz"],
   ["PW GPCI", "PE GPCI", "MP GPCI"]]

/-- Concrete record used by witnesses: a first-year snapshot row.  (All
numeric payloads are integer literals so that lookups stay
kernel-computable; tolerance facts are discharged separately.) -/
def recCheck : YearRecord :=
  { desc := "Office visit", work_rvu := .fin 1, pe_rvu_fac := .fin 0,
    pe_rvu_nonfac := .fin 1, mp_rvu := .fin 0 }

/-- Concrete record used by witnesses: baseline year. -/
def brec1 : YearRecord :=
  { desc := "Visit", work_rvu := .fin 1, pe_rvu_fac := .fin 0,
    pe_rvu_nonfac := .fin 0, mp_rvu := .fin 0 }

/-- Concrete record used by witnesses: work component exactly one
tolerance unit (tolerance 1 in the witness) above `brec1`. -/
def brec2 : YearRecord :=
  { desc := "Visit", work_rvu := .fin 2, pe_rvu_fac := .fin 0,
    pe_rvu_nonfac := .fin 0, mp_rvu := .fin 0 }

/-- Concrete record with an empty description. -/
def cx1 : YearRecord :=
  { desc := "", work_rvu := .fin 1, pe_rvu_fac := .fin 0,
    pe_rvu_nonfac := .fin 0, mp_rvu := .fin 0 }

/-- Concrete record with a non-empty description. -/
def cx2 : YearRecord :=
  { desc := "X", work_rvu := .fin 1, pe_rvu_fac := .fin 0,
    pe_rvu_nonfac := .fin 0, mp_rvu := .fin 0 }

/-- Concrete resolved RVU columns for witnesses (the MP column resolves
past the row end, exercising the out-of-range default). -/
def rvuColsW : RvuCols :=
  { cpt := 0, desc := some 1, work := some 2, peFac := none,
    peNonfac := none, mp := some 9 }

/-- Concrete resolved GPCI columns for witnesses (no state column, no MAC
column). -/
def gpciColsW : GpciCols :=
  { mac := none, state := none, locNum := 0, locName := 1,
    work := 2, pe := 3, mp := 4 }

/-- A raw snapshot row (JSON object) used by the C8 witness. -/
def c8row1 : JValue :=
  .obj [("desc", .str "old"), ("work_rvu", .num (.fin 1)),
        ("pe_rvu_fac", .num (.fin 0)), ("pe_rvu_nonfac", .num (.fin 0)),
        ("mp_rvu", .num (.fin 0))]

/-- A second raw snapshot row whose code collides with `c8row1` after
trimming and upper-casing. -/
def c8row2 : JValue :=
  .obj [("desc", .str "new"), ("work_rvu", .num (.fin 2)),
        ("pe_rvu_fac", .num (.fin 0)), ("pe_rvu_nonfac", .num (.fin 0)),
        ("mp_rvu", .num (.fin 0))]

/-- Raw snapshot data with the same code spelled two ways. -/
def c8data : List (String × JValue) := [(" a ", c8row1), ("A", c8row2)]

/-- The cleaned record of the last occurrence in `c8data`. -/
def c8rec : YearRecord :=
  { desc := "new", work_rvu := .fin 2, pe_rvu_fac := .fin 0,
    pe_rvu_nonfac := .fin 0, mp_rvu := .fin 0 }

end RVU

namespace RVU

/-! # Claim theorems -/

/-- **C9, counterexample.**  The spec example is wrong on the code: the
normalizations of header `"PE RVU Non-Facility"` and candidate pattern
`"non-facility pe"` (`"pervunonfacility"` and `"nonfacilitype"`) are not
substrings of one another in either direction, so a resolver given
exactly that header and that pattern returns unresolved rather than
"the same column". -/
theorem c9_counterexample :
    findColumn ["PE RVU Non-Facility"] ["non-facility pe"] = none ∧
    strContains (normalizeHeader "PE RVU Non-Facility")
      (normalizeHeader "non-facility pe") = false ∧
    strContains (normalizeHeader "non-facility pe")
      (normalizeHeader "PE RVU Non-Facility") = false := by
  decide

/-- **C9, amended.**  What does hold: the bidirectional substring test is
symmetric in its two arguments (so matching is insensitive to which
normalized string is the longer one), shorter-vs-longer pairs such as
header `"PE"` against pattern `"pe rvu non-facility"` and header
`"PE RVU Non-Facility"` against the shipped pattern list both resolve to
the column, but the specific pair `"PE RVU Non-Facility"` /
`"non-facility pe"` matches in neither direction. -/
theorem c9_symmetry_amended :
    (∀ a b : String, matchTest a b = matchTest b a) ∧
    findColumn ["PE RVU Non-Facility"] rvuPeNonfacPatterns = some 0 ∧
    findColumn ["PE"] ["pe rvu non-facility"] = some 0 ∧
    matchTest (normalizeHeader "PE RVU Non-Facility")
      (normalizeHeader "non-facility pe") = false := by
  refine ⟨fun a b => ?_, by decide, by decide, by decide⟩
  simp [matchTest, Bool.or_comm]

/-- **C4, counterexample.**  `find_column` skips headers whose
normalization is empty, but the empty string is a substring of every
pattern, so the claim's "first header for which the normalized pattern is
a substring of the normalized header or vice versa" disagrees with the
code on a header like `"!"`: the claim picks index 0, the code returns
unresolved. -/
theorem c4_counterexample :
    findColumn ["!"] ["cpt"] = none ∧
    claimFindColumn ["!"] ["cpt"] = some 0 ∧
    matchTest (normalizeHeader "!") (normalizeHeader "cpt") = true := by
  decide

/-- First-match characterization of `List.findIdx?`: it returns `some i`
exactly when position `i` satisfies the predicate and no earlier position
does. -/
theorem findIdx?_some_char {α : Type} (p : α → Bool) :
    ∀ (l : List α) (i : Nat), l.findIdx? p = some i ↔
      ((∃ x : α, l[i]? = some x ∧ p x = true) ∧
       (∀ j : Nat, j < i → ∀ y, l[j]? = some y → p y = false)) := by
  intro l
  induction l with
  | nil =>
    intro i
    constructor
    · intro h; cases h
    · rintro ⟨⟨x, hx, -⟩, -⟩; cases hx
  | cons a l ih =>
    intro i
    rw [List.findIdx?_cons, List.findIdx?_succ]
    cases hpa : p a
    · simp only [Bool.false_eq_true, if_false]
      cases i with
      | zero =>
        constructor
        · intro h
          cases hfi : l.findIdx? p <;> rw [hfi] at h <;> cases h
        · rintro ⟨⟨x, hx, hpx⟩, -⟩
          rw [List.getElem?_cons_zero] at hx
          injection hx with hx
          subst hx
          rw [hpa] at hpx
          cases hpx
      | succ i' =>
        constructor
        · intro h
          cases hfi : l.findIdx? p with
          | none => rw [hfi] at h; cases h
          | some j =>
            rw [hfi] at h
            injection h with h
            have h' : j + 1 = i' + 1 := h
            have hj : j = i' := by omega
            subst hj
            obtain ⟨⟨x, hx, hpx⟩, hmin⟩ := (ih j).mp hfi
            refine ⟨⟨x, by rw [List.getElem?_cons_succ]; exact hx, hpx⟩, ?_⟩
            intro j' hj' y hy
            cases j' with
            | zero =>
              rw [List.getElem?_cons_zero] at hy
              injection hy with hy
              subst hy
              exact hpa
            | succ j'' =>
              rw [List.getElem?_cons_succ] at hy
              exact hmin j'' (by omega) y hy
        · rintro ⟨⟨x, hx, hpx⟩, hmin⟩
          rw [List.getElem?_cons_succ] at hx
          have hfi : l.findIdx? p = some i' := by
            refine (ih i').mpr ⟨⟨x, hx, hpx⟩, ?_⟩
            intro j hj y hy
            exact hmin (j + 1) (by omega) y (by rw [List.getElem?_cons_succ]; exact hy)
          rw [hfi]
          rfl
    · simp only [if_true]
      cases i with
      | zero =>
        constructor
        · intro _
          exact ⟨⟨a, by simp, hpa⟩, fun j hj => absurd hj (by omega)⟩
        · intro _; rfl
      | succ i' =>
        constructor
        · intro h; cases h
        · rintro ⟨-, hmin⟩
          have := hmin 0 (by omega) a (by simp)
          rw [hpa] at this
          cases this
/-- First-match characterization of `List.findSome?`: it returns `some b`
exactly when some position maps to `some b` and all earlier positions map
to `none`. -/
theorem findSome?_some_char {α β : Type} (f : α → Option β) :
    ∀ (l : List α) (b : β), l.findSome? f = some b ↔
      ∃ (k : Nat) (x : α), l[k]? = some x ∧ f x = some b ∧
        (∀ k' : Nat, k' < k → ∀ y, l[k']? = some y → f y = none) := by
  intro l
  induction l with
  | nil =>
    intro b
    constructor
    · intro h; cases h
    · rintro ⟨k, x, hx, -, -⟩; cases hx
  | cons a l ih =>
    intro b
    rw [List.findSome?_cons]
    cases hfa : f a with
    | some b0 =>
      constructor
      · intro h
        injection h with h
        subst h
        exact ⟨0, a, by simp, hfa, fun k' hk' => absurd hk' (by omega)⟩
      · rintro ⟨k, x, hx, hfx, hmin⟩
        cases k with
        | zero =>
          rw [List.getElem?_cons_zero] at hx
          injection hx with hx
          subst hx
          rw [hfa] at hfx
          exact hfx
        | succ k' =>
          have := hmin 0 (by omega) a (by simp)
          rw [hfa] at this
          cases this
    | none =>
      rw [ih b]
      constructor
      · rintro ⟨k, x, hx, hfx, hmin⟩
        refine ⟨k + 1, x, by rw [List.getElem?_cons_succ]; exact hx, hfx, ?_⟩
        intro k' hk' y hy
        cases k' with
        | zero =>
          rw [List.getElem?_cons_zero] at hy
          injection hy with hy
          subst hy
          exact hfa
        | succ k'' =>
          rw [List.getElem?_cons_succ] at hy
          exact hmin k'' (by omega) y hy
      · rintro ⟨k, x, hx, hfx, hmin⟩
        cases k with
        | zero =>
          rw [List.getElem?_cons_zero] at hx
          injection hx with hx
          subst hx
          rw [hfa] at hfx
          cases hfx
        | succ k' =>
          rw [List.getElem?_cons_succ] at hx
          refine ⟨k', x, hx, hfx, ?_⟩
          intro k'' hk'' y hy
          exact hmin (k'' + 1) (by omega) y (by rw [List.getElem?_cons_succ]; exact hy)

/-- **C4, amended.**  On any header list the resolver normalizes every
header, *skips* headers whose normalization is empty, tries the patterns
in supplied order, and returns the index of the first non-skipped header
matching the earliest matching pattern bidirectionally; it returns `none`
iff no header with non-empty normalization matches any pattern.  In
particular a blank header among real ones is skipped, not matched:
`find_column(['', 'CPT Code'], 'cpt') = 1`. -/
theorem c4_resolver_amended (headers patterns : List String) :
    (∀ i : Nat, findColumn headers patterns = some i →
      ∃ (k : Nat) (pat : String), patterns[k]? = some pat ∧
        (∃ hdr, headers[i]? = some hdr ∧ normalizeHeader hdr ≠ "" ∧
          matchTest (normalizeHeader hdr) (normalizeHeader pat) = true) ∧
        (∀ j : Nat, j < i → ∀ hdr, headers[j]? = some hdr → normalizeHeader hdr ≠ "" →
          matchTest (normalizeHeader hdr) (normalizeHeader pat) = false) ∧
        (∀ k' : Nat, k' < k → ∀ pat', patterns[k']? = some pat' →
          ∀ hdr ∈ headers, normalizeHeader hdr ≠ "" →
            matchTest (normalizeHeader hdr) (normalizeHeader pat') = false)) ∧
    (findColumn headers patterns = none ↔
      ∀ pat ∈ patterns, ∀ hdr ∈ headers, normalizeHeader hdr ≠ "" →
        matchTest (normalizeHeader hdr) (normalizeHeader pat) = false) ∧
    findColumn ["", "CPT Code"] ["cpt"] = some 1 := by
  refine ⟨?_, ?_, by decide⟩
  · intro i hres
    obtain ⟨k, pat, hk, hfi, hkmin⟩ :=
      (findSome?_some_char _ patterns i).mp hres
    obtain ⟨⟨x, hx, hpx⟩, hjmin⟩ :=
      (findIdx?_some_char _ (headers.map normalizeHeader) i).mp hfi
    rw [List.getElem?_map] at hx
    cases hh : headers[i]? with
    | none => rw [hh] at hx; cases hx
    | some hdr =>
      rw [hh] at hx
      injection hx with hx
      subst hx
      have hpx' : normalizeHeader hdr ≠ "" ∧
          matchTest (normalizeHeader hdr) (normalizeHeader pat) = true := by
        simpa using hpx
      refine ⟨k, pat, hk, ⟨hdr, rfl, hpx'.1, hpx'.2⟩, ?_, ?_⟩
      · intro j hj hdr' hj' hne
        have hpred := hjmin j hj (normalizeHeader hdr')
          (by rw [List.getElem?_map, hj']; rfl)
        rcases Bool.and_eq_false_iff.mp hpred with h | h
        · exact absurd (by simpa using h) hne
        · exact h
      · intro k' hk' pat' hpat' hdr' hmem hne
        have hnone := hkmin k' hk' pat' hpat'
        rw [List.findIdx?_eq_none_iff] at hnone
        have hpred := hnone (normalizeHeader hdr')
          (List.mem_map.mpr ⟨hdr', hmem, rfl⟩)
        rcases Bool.and_eq_false_iff.mp hpred with h | h
        · exact absurd (by simpa using h) hne
        · exact h
  · unfold findColumn
    rw [List.findSome?_eq_none_iff]
    constructor
    · intro hall pat hp hdr hh hne
      have h1 := hall pat hp
      rw [List.findIdx?_eq_none_iff] at h1
      have hpred := h1 (normalizeHeader hdr) (List.mem_map.mpr ⟨hdr, hh, rfl⟩)
      rcases Bool.and_eq_false_iff.mp hpred with h | h
      · exact absurd (by simpa using h) hne
      · exact h
    · intro hall pat hp
      rw [List.findIdx?_eq_none_iff]
      intro x hx
      rcases List.mem_map.mp hx with ⟨hdr, hmem, rfl⟩
      by_cases hne : normalizeHeader hdr = ""
      · simp [hne]
      · simp [hne, hall pat hp hdr hmem hne]

/-- **C4, witness.**  On the mixed list `["", "CPT Code"]` with pattern
`"cpt"` the resolver skips the blank header and the first-match
characterization holds at the returned index 1. -/
theorem c4_witness :
    ∃ (k : Nat) (pat : String), (["cpt"] : List String)[k]? = some pat ∧
      (∃ hdr, (["", "CPT Code"] : List String)[1]? = some hdr ∧
        normalizeHeader hdr ≠ "" ∧
        matchTest (normalizeHeader hdr) (normalizeHeader pat) = true) ∧
      (∀ j : Nat, j < 1 → ∀ hdr, (["", "CPT Code"] : List String)[j]? = some hdr →
        normalizeHeader hdr ≠ "" →
        matchTest (normalizeHeader hdr) (normalizeHeader pat) = false) ∧
      (∀ k' : Nat, k' < k → ∀ pat', (["cpt"] : List String)[k']? = some pat' →
        ∀ hdr ∈ (["", "CPT Code"] : List String), normalizeHeader hdr ≠ "" →
          matchTest (normalizeHeader hdr) (normalizeHeader pat') = false) :=
  (c4_resolver_amended ["", "CPT Code"] ["cpt"]).1 1 (by decide)

/-- Soundness of the fueled header scan: a returned header is the first
single-line or split-pair trigger at or after the start index, with the
advertised shape; `none` means the window holds no trigger at all. -/
theorem scanFrom_sound (rows : List (List String)) (limit : Nat) :
    ∀ fuel i, limit ≤ fuel + i →
      (∀ res, scanFrom rows limit fuel i = some res →
        i ≤ res.1 ∧
        (∀ j, i ≤ j → j < res.1 →
          ¬ singleTrigger rows j ∧ ¬ pairTrigger rows limit j) ∧
        ((res.2.1 = 1 ∧ singleTrigger rows res.1 ∧
            res.2.2.1 = rows.getD res.1 [] ∧ res.2.2.2 = res.1 + 1) ∨
         (res.2.1 = 2 ∧ pairTrigger rows limit res.1 ∧
            res.2.2.1 = mergePair (rows.getD res.1 []) (rows.getD (res.1 + 1) []) ∧
            res.2.2.2 = res.1 + 2))) ∧
      (scanFrom rows limit fuel i = none →
        ∀ j, i ≤ j → j < limit →
          ¬ singleTrigger rows j ∧ ¬ pairTrigger rows limit j) := by
  intro fuel
  induction fuel with
  | zero =>
    intro i hle
    refine ⟨?_, ?_⟩
    · intro res hres
      rw [scanFrom] at hres
      cases hres
    · intro _ j hij hj
      exact absurd hj (by omega)
  | succ fuel ih =>
    intro i hle
    by_cases hi : i < limit
    · have hrec := ih (i + 1) (by omega)
      -- a helper closing the four "continue" branches
      have step : ∀ (hval : scanFrom rows limit (fuel + 1) i = scanFrom rows limit fuel (i + 1))
          (hcur : ¬ singleTrigger rows i ∧ ¬ pairTrigger rows limit i),
          (∀ res, scanFrom rows limit (fuel + 1) i = some res →
            i ≤ res.1 ∧
            (∀ j, i ≤ j → j < res.1 →
              ¬ singleTrigger rows j ∧ ¬ pairTrigger rows limit j) ∧
            ((res.2.1 = 1 ∧ singleTrigger rows res.1 ∧
                res.2.2.1 = rows.getD res.1 [] ∧ res.2.2.2 = res.1 + 1) ∨
             (res.2.1 = 2 ∧ pairTrigger rows limit res.1 ∧
                res.2.2.1 = mergePair (rows.getD res.1 []) (rows.getD (res.1 + 1) []) ∧
                res.2.2.2 = res.1 + 2))) ∧
          (scanFrom rows limit (fuel + 1) i = none →
            ∀ j, i ≤ j → j < limit →
              ¬ singleTrigger rows j ∧ ¬ pairTrigger rows limit j) := by
        intro hval hcur
        constructor
        · intro res hres
          rw [hval] at hres
          obtain ⟨ha, hb, hc⟩ := hrec.1 res hres
          refine ⟨by omega, ?_, hc⟩
          intro j hij hjr
          rcases Nat.eq_or_lt_of_le hij with rfl | hlt
          · exact hcur
          · exact hb j hlt hjr
        · intro hres j hij hj
          rw [hval] at hres
          rcases Nat.eq_or_lt_of_le hij with rfl | hlt
          · exact hcur
          · exact hrec.2 hres j hlt hj
      by_cases h3 : (rows.getD i []).length < 3
      · have hval : scanFrom rows limit (fuel + 1) i = scanFrom rows limit fuel (i + 1) := by
          rw [scanFrom, if_pos hi, if_pos h3]
        have hnoanch : ¬ rowAnchored rows i := fun h => absurd h.1 (by omega)
        exact step hval ⟨fun h => hnoanch h.1, fun h => hnoanch h.1⟩
      · by_cases hanch : gpciAnchorsRow ((rows.getD i []).map normalizeHeader) = true
        · by_cases hg : hasGpciCols ((rows.getD i []).map normalizeHeader) = true
          · -- single-line header found at i
            have hval : scanFrom rows limit (fuel + 1) i =
                some (i, 1, rows.getD i [], i + 1) := by
              rw [scanFrom, if_pos hi, if_neg h3, if_pos hanch, if_pos hg]
            refine ⟨?_, ?_⟩
            · intro res hres
              rw [hval] at hres
              cases hres
              refine ⟨le_refl i,
                fun j hij hjr => absurd (show j < i from hjr) (by omega), Or.inl ?_⟩
              exact ⟨rfl, ⟨⟨show 3 ≤ (rows.getD i []).length by omega, hanch⟩, hg⟩, rfl, rfl⟩
            · intro hres
              rw [hval] at hres
              cases hres
          · have hgf : hasGpciCols ((rows.getD i []).map normalizeHeader) = false :=
              Bool.eq_false_iff.mpr hg
            by_cases hnext : i + 1 < limit
            · by_cases hrow2 : 3 ≤ (rows.getD (i + 1) []).length ∧
                  hasGpciCols ((rows.getD (i + 1) []).map normalizeHeader) = true
              · -- split pair found at (i, i+1)
                have hval : scanFrom rows limit (fuel + 1) i =
                    some (i, 2, mergePair (rows.getD i []) (rows.getD (i + 1) []), i + 2) := by
                  rw [scanFrom, if_pos hi, if_neg h3, if_pos hanch, if_neg hg,
                    if_pos hnext, if_pos hrow2]
                refine ⟨?_, ?_⟩
                · intro res hres
                  rw [hval] at hres
                  cases hres
                  refine ⟨le_refl i,
                    fun j hij hjr => absurd (show j < i from hjr) (by omega), Or.inr ?_⟩
                  exact ⟨rfl, ⟨⟨show 3 ≤ (rows.getD i []).length by omega, hanch⟩,
                    hgf, hnext, hrow2.1, hrow2.2⟩, rfl, rfl⟩
                · intro hres
                  rw [hval] at hres
                  cases hres
              · have hval : scanFrom rows limit (fuel + 1) i =
                    scanFrom rows limit fuel (i + 1) := by
                  rw [scanFrom, if_pos hi, if_neg h3, if_pos hanch, if_neg hg,
                    if_pos hnext, if_neg hrow2]
                refine step hval ⟨?_, ?_⟩
                · intro h; rw [h.2] at hgf; cases hgf
                · intro h; exact hrow2 ⟨h.2.2.2.1, h.2.2.2.2⟩
            · have hval : scanFrom rows limit (fuel + 1) i =
                  scanFrom rows limit fuel (i + 1) := by
                rw [scanFrom, if_pos hi, if_neg h3, if_pos hanch, if_neg hg, if_neg hnext]
              refine step hval ⟨?_, ?_⟩
              · intro h; rw [h.2] at hgf; cases hgf
              · intro h; exact hnext h.2.2.1
        · have hval : scanFrom rows limit (fuel + 1) i =
              scanFrom rows limit fuel (i + 1) := by
            rw [scanFrom, if_pos hi, if_neg h3, if_neg hanch]
          exact step hval ⟨fun h => hanch h.1.2, fun h => hanch h.1.2⟩
    · refine ⟨?_, ?_⟩
      · intro res hres
        rw [scanFrom, if_neg hi] at hres
        cases hres
      · intro _ j hij hj
        exact absurd hj (by omega)

/-- **C5, amended.**  As the claim states — anchors without index columns
send only the immediately following row to the index-column test, the two
rows are merged cell-by-cell, scanning stops at the first triggering row
or row pair, and an exhausted window reports failure — except for the
merge fallback: where the first row's cell is empty or purely numeric the
merged cell is the second row's *stripped* cell unless that too is empty,
in which case the first row's (empty or numeric) stripped cell is kept. -/
theorem c5_header_merge_amended (rows : List (List String)) (maxScan : Nat) :
    (∀ i n hs ds, extractGpciHeaders rows maxScan = some (i, n, hs, ds) →
      (∀ j, j < i → ¬ singleTrigger rows j ∧
        ¬ pairTrigger rows (min maxScan rows.length) j) ∧
      (n = 1 → singleTrigger rows i ∧ hs = rows.getD i [] ∧ ds = i + 1) ∧
      (n = 2 → pairTrigger rows (min maxScan rows.length) i ∧
        hs = mergePair (rows.getD i []) (rows.getD (i + 1) []) ∧ ds = i + 2) ∧
      (∀ j, mergedCell ((rows.getD i []).getD j "") ((rows.getD (i + 1) []).getD j "") =
        (if pyStrip ((rows.getD i []).getD j "") = "" ∨
            isDigitStr (pyStrip ((rows.getD i []).getD j "")) then
          (if pyStrip ((rows.getD (i + 1) []).getD j "") = "" then
            pyStrip ((rows.getD i []).getD j "")
          else pyStrip ((rows.getD (i + 1) []).getD j ""))
        else pyStrip ((rows.getD i []).getD j "")))) ∧
    (extractGpciHeaders rows maxScan = none →
      ∀ j, j < min maxScan rows.length →
        ¬ singleTrigger rows j ∧ ¬ pairTrigger rows (min maxScan rows.length) j) := by
  have base := scanFrom_sound rows (min maxScan rows.length)
    (min maxScan rows.length) 0 (by omega)
  constructor
  · intro i n hs ds hres
    obtain ⟨-, hnone, hok⟩ := base.1 (i, n, hs, ds) hres
    refine ⟨fun j hj => hnone j (by omega) hj, ?_, ?_, fun j => rfl⟩
    · intro hn1
      rcases hok with h | h
      · exact ⟨h.2.1, h.2.2.1, h.2.2.2⟩
      · exfalso
        have h2 : n = 2 := h.1
        omega
    · intro hn2
      rcases hok with h | h
      · exfalso
        have h1 : n = 1 := h.1
        omega
      · exact ⟨h.2.1, h.2.2.1, h.2.2.2⟩
  · intro hres j hj
    exact base.2 hres j (by omega) hj

/-- **C5, witness.**  On a concrete split two-line header the scanner
reports a pair merge of rows 0 and 1 with the data start right after. -/
theorem c5_witness :
    pairTrigger gpciExampleRows (min 80 gpciExampleRows.length) 0 ∧
    ["Locality Number", "Locality Name", "zzz"] =
      mergePair (gpciExampleRows.getD 0 []) (gpciExampleRows.getD 1 []) := by
  have h := (c5_header_merge_amended gpciExampleRows 80).1 0 2
    ["Locality Number", "Locality Name", "zzz"] 2 (by decide)
  exact ⟨(h.2.2.1 rfl).1, (h.2.2.1 rfl).2.1⟩

/-- **C5, counterexample.**  In the two-line merge the code appends
`b_clean or a_clean`: when the first row's cell is purely numeric and the
second row's cell is empty, the *first* row's cell is kept, not "the
second row's cell" as the claim states.  Here position 3 merges first-row
`"7"` over an absent second-row cell: the code yields `"7"`, the claim's
rule yields `""`. -/
theorem c5_counterexample :
    extractGpciHeaders
        [["Locality Number", "Locality Name", "x", "7"],
         ["PW GPCI", "PE GPCI", "MP GPCI"]] 80
      = some (0, 2, ["Locality Number", "Locality Name", "x", "7"], 2) ∧
    claimMergePair ["Locality Number", "Locality Name", "x", "7"]
        ["PW GPCI", "PE GPCI", "MP GPCI"]
      = ["Locality Number", "Locality Name", "x", ""] ∧
    (["Locality Number", "Locality Name", "x", "7"] : List String) ≠
      ["Locality Number", "Locality Name", "x", ""] := by
  refine ⟨by decide, by decide, by decide⟩

/-- A non-empty list always has a last element. -/
theorem getLast?_cons_ne_none {α : Type} (x : α) (l : List α) :
    (x :: l).getLast? ≠ none := by
  induction l generalizing x with
  | nil => simp
  | cons y l ih => rw [List.getLast?_cons_cons]; exact ih y

/-- The status loop computes, at every present slot, the status relative
to the record tracked for the most recent earlier present year (falling
back to the incoming tracker value when the consumed prefix holds no
present year). -/
theorem statusListAux_present (g : Nat → Option YearRecord) (tol : ℚ) :
    ∀ (ys : List Nat) (prev : Option YearRecord) (i y : Nat) (r : YearRecord),
      ys[i]? = some y → g y = some r →
      (statusListAux g tol prev ys)[i]? =
        some (some (statusOf (lastPresentOr g (ys.take i) prev) r tol)) := by
  intro ys
  induction ys with
  | nil => intro prev i y r hy _; cases hy
  | cons y0 ys ih =>
    intro prev i y r hy hr
    cases i with
    | zero =>
      rw [List.getElem?_cons_zero] at hy
      cases hy
      simp only [statusListAux, hr, List.getElem?_cons_zero, List.take_zero]
      rfl
    | succ i =>
      rw [List.getElem?_cons_succ] at hy
      cases hg0 : g y0 with
      | none =>
        have := ih prev i y r hy hr
        simp only [statusListAux, hg0, List.getElem?_cons_succ]
        rw [this]
        have harg : lastPresentOr g ((y0 :: ys).take (i + 1)) prev =
            lastPresentOr g (ys.take i) prev := by
          simp [lastPresentOr, List.take_succ_cons, List.filterMap_cons, hg0]
        rw [harg]
      | some r0 =>
        have := ih (some r0) i y r hy hr
        simp only [statusListAux, hg0, List.getElem?_cons_succ]
        rw [this]
        have harg : lastPresentOr g ((y0 :: ys).take (i + 1)) prev =
            lastPresentOr g (ys.take i) (some r0) := by
          simp only [lastPresentOr, List.take_succ_cons, List.filterMap_cons, hg0]
          cases hfm : List.filterMap g (ys.take i) with
          | nil => simp
          | cons x l =>
            cases hgl : (x :: l).getLast? with
            | none => exact absurd hgl (getLast?_cons_ne_none x l)
            | some p => simp [hgl]
        rw [harg]

/-- **C1.**  For every code and present output year: with no earlier
present output year the status slot is `"new"`; otherwise it is
`"modified"` exactly when some numeric component fails the tolerance test
against the most recent earlier *present* year (absent years skipped) or
the description differs under exact text equality, else `"existing"`.
The trailing conjuncts pin the tolerance test down: failing it on finite
values means differing by strictly more than `tol`, and a pair with a
non-finite member is compared by Python float equality instead. -/
theorem c1_status_classification (pairs : List (Nat × Snapshot)) (years : List Nat)
    (tol : ℚ) (code : String) (i y : Nat) (r : YearRecord)
    (hy : years[i]? = some y) (hr : getRow pairs code y = some r) :
    ((buildCodeEntry pairs years tol code).status)[i]? =
      some (some (match lastPresentRow (getRow pairs code) (years.take i) with
        | none => Status.new
        | some p =>
          if componentsChanged p r tol || p.desc != r.desc then Status.modified
          else Status.existing)) ∧
    (componentsChanged = fun p c tol =>
      !nearlyEqual p.work_rvu c.work_rvu tol ||
      !nearlyEqual p.pe_rvu_fac c.pe_rvu_fac tol ||
      !nearlyEqual p.pe_rvu_nonfac c.pe_rvu_nonfac tol ||
      !nearlyEqual p.mp_rvu c.mp_rvu tol) ∧
    (∀ a b : ℚ, (!nearlyEqual (.fin a) (.fin b) tol) = decide (tol < |a - b|)) ∧
    (∀ p q : PFloat, ¬(p.isFinite = true ∧ q.isFinite = true) →
      nearlyEqual p q tol = PFloat.pyEq p q) := by
  refine ⟨?_, rfl, ?_, ?_⟩
  · have hmain := statusListAux_present (getRow pairs code) tol years none i y r hy hr
    have hlp : lastPresentOr (getRow pairs code) (years.take i) none =
        lastPresentRow (getRow pairs code) (years.take i) := by
      unfold lastPresentOr lastPresentRow
      cases (List.filterMap (getRow pairs code) (years.take i)).getLast? <;> rfl
    show (statusListAux (getRow pairs code) tol none years)[i]? = _
    rw [hmain, hlp]
    cases lastPresentRow (getRow pairs code) (years.take i) <;> rfl
  · intro a b
    simp [nearlyEqual, ← decide_not, not_le]
  · intro p q hnf
    cases p <;> cases q <;>
      simp [nearlyEqual, PFloat.isFinite, PFloat.pyEq] at hnf ⊢

/-- **C1, witness.**  A code first present in 2019 gets status `"new"`
at the 2019 slot. -/
theorem c1_witness :
    ((buildCodeEntry [(2019, [("A", recCheck)])] [2019, 2020] 1 "A").status)[0]? =
      some (some Status.new) := by
  have h := (c1_status_classification [(2019, [("A", recCheck)])] [2019, 2020]
    1 "A" 0 2019 recCheck (by decide) (by decide)).1
  exact h.trans (by decide)

/-- **C2.**  For consecutive present years with equal descriptions: the
later year's status is `"existing"` exactly when all four components pass
the tolerance test and `"modified"` exactly when at least one fails it;
on finite pairs the test is `|difference| ≤ tol`, and a pair with a
non-finite member is compared by Python float equality instead. -/
theorem c2_tolerance_boundary (pairs : List (Nat × Snapshot)) (years : List Nat)
    (tol : ℚ) (code : String) (i y : Nat) (r1 r2 : YearRecord)
    (hy : years[i]? = some y) (hr : getRow pairs code y = some r2)
    (hprev : lastPresentRow (getRow pairs code) (years.take i) = some r1)
    (hdesc : r1.desc = r2.desc) :
    (∃ st, ((buildCodeEntry pairs years tol code).status)[i]? = some (some st) ∧
      (st = Status.existing ↔
        (nearlyEqual r1.work_rvu r2.work_rvu tol = true ∧
         nearlyEqual r1.pe_rvu_fac r2.pe_rvu_fac tol = true ∧
         nearlyEqual r1.pe_rvu_nonfac r2.pe_rvu_nonfac tol = true ∧
         nearlyEqual r1.mp_rvu r2.mp_rvu tol = true)) ∧
      (st = Status.modified ↔
        (nearlyEqual r1.work_rvu r2.work_rvu tol = false ∨
         nearlyEqual r1.pe_rvu_fac r2.pe_rvu_fac tol = false ∨
         nearlyEqual r1.pe_rvu_nonfac r2.pe_rvu_nonfac tol = false ∨
         nearlyEqual r1.mp_rvu r2.mp_rvu tol = false))) ∧
    (∀ a b : ℚ, nearlyEqual (.fin a) (.fin b) tol = decide (|a - b| ≤ tol)) ∧
    (∀ p q : PFloat, ¬(p.isFinite = true ∧ q.isFinite = true) →
      nearlyEqual p q tol = PFloat.pyEq p q) := by
  refine ⟨?_, fun a b => rfl, ?_⟩
  · have hmain := statusListAux_present (getRow pairs code) tol years none i y r2 hy hr
    have hlp : lastPresentOr (getRow pairs code) (years.take i) none =
        lastPresentRow (getRow pairs code) (years.take i) := by
      unfold lastPresentOr lastPresentRow
      cases (List.filterMap (getRow pairs code) (years.take i)).getLast? <;> rfl
    rw [hlp, hprev] at hmain
    refine ⟨statusOf (some r1) r2 tol, hmain, ?_⟩
    have hst : statusOf (some r1) r2 tol =
        (if componentsChanged r1 r2 tol then Status.modified else Status.existing) := by
      unfold statusOf
      simp [hdesc]
    cases hcc : componentsChanged r1 r2 tol
    · rw [hcc] at hst
      simp only [Bool.false_eq_true, if_false] at hst
      unfold componentsChanged at hcc
      simp only [Bool.or_eq_false_iff, Bool.not_eq_false'] at hcc
      rw [hst]
      refine ⟨⟨fun _ => ⟨hcc.1.1.1, hcc.1.1.2, hcc.1.2, hcc.2⟩, fun _ => rfl⟩, ?_⟩
      constructor
      · intro h; exact absurd h (by decide)
      · intro hdisj
        exfalso
        rcases hdisj with h | h | h | h
        · rw [hcc.1.1.1] at h; cases h
        · rw [hcc.1.1.2] at h; cases h
        · rw [hcc.1.2] at h; cases h
        · rw [hcc.2] at h; cases h
    · rw [hcc] at hst
      simp only [if_true] at hst
      unfold componentsChanged at hcc
      simp only [Bool.or_eq_true, Bool.not_eq_true'] at hcc
      have hdisj : nearlyEqual r1.work_rvu r2.work_rvu tol = false ∨
          nearlyEqual r1.pe_rvu_fac r2.pe_rvu_fac tol = false ∨
          nearlyEqual r1.pe_rvu_nonfac r2.pe_rvu_nonfac tol = false ∨
          nearlyEqual r1.mp_rvu r2.mp_rvu tol = false := by
        rcases hcc with ((h | h) | h) | h
        · exact Or.inl h
        · exact Or.inr (Or.inl h)
        · exact Or.inr (Or.inr (Or.inl h))
        · exact Or.inr (Or.inr (Or.inr h))
      rw [hst]
      refine ⟨?_, ⟨fun _ => hdisj, fun _ => rfl⟩⟩
      constructor
      · intro h; exact absurd h (by decide)
      · intro hall
        exfalso
        rcases hdisj with h | h | h | h
        · rw [hall.1] at h; cases h
        · rw [hall.2.1] at h; cases h
        · rw [hall.2.2.1] at h; cases h
        · rw [hall.2.2.2] at h; cases h
  · intro p q hnf
    cases p <;> cases q <;>
      simp [nearlyEqual, PFloat.isFinite, PFloat.pyEq] at hnf ⊢

/-- **C3, counterexample.**  The claim says *every* present year whose
description differs from the canonical one lands in `desc_overrides`;
the code additionally requires both descriptions to be non-empty.  With
a 2019 description of `""` and canonical (2020) description `"X"`, the
year differs from the canonical description yet no override is
recorded. -/
theorem c3_counterexample :
    (buildCodeEntry [(2019, [("A", cx1)]), (2020, [("A", cx2)])]
      [2019, 2020] 1 "A").descOverrides = [] ∧
    getRow [(2019, [("A", cx1)]), (2020, [("A", cx2)])] "A" 2019 = some cx1 ∧
    cx1.desc ≠
      (buildCodeEntry [(2019, [("A", cx1)]), (2020, [("A", cx2)])]
        [2019, 2020] 1 "A").desc := by
  refine ⟨by decide, by decide, by decide⟩

/-- Keys-unique association lists determine values. -/
theorem keys_nodup_val_eq :
    ∀ (l : List (Nat × Snapshot)), (l.map Prod.fst).Nodup →
      ∀ {y : Nat} {s t : Snapshot}, (y, s) ∈ l → (y, t) ∈ l → s = t := by
  intro l
  induction l with
  | nil => intro _ y s t hs; cases hs
  | cons a l ih =>
    intro hnd y s t hs ht
    rw [List.map_cons, List.nodup_cons] at hnd
    rcases List.mem_cons.mp hs with rfl | hs'
    · rcases List.mem_cons.mp ht with h | ht'
      · injection h with h1 h2
        exact h2.symm
      · exact absurd (List.mem_map.mpr ⟨(y, t), ht', rfl⟩) hnd.1
    · rcases List.mem_cons.mp ht with h | ht'
      · cases h
        exact absurd (List.mem_map.mpr ⟨(y, s), hs', rfl⟩) hnd.1
      · exact ih hnd.2 hs' ht'

/-- With duplicate-free years, `per_year` lookup is plain membership. -/
theorem lookupYear_eq_some_iff (pairs : List (Nat × Snapshot))
    (hnd : (pairs.map Prod.fst).Nodup) (y : Nat) (s : Snapshot) :
    lookupYear pairs y = some s ↔ (y, s) ∈ pairs := by
  constructor
  · intro h
    unfold lookupYear at h
    cases hfind : pairs.reverse.find? (fun p => p.1 == y) with
    | none => rw [hfind] at h; cases h
    | some p =>
      rw [hfind] at h
      injection h with h2
      subst h2
      have hkey : p.1 = y := by
        have := List.find?_some hfind
        simpa using this
      have hmem : p ∈ pairs := List.mem_reverse.mp (List.mem_of_find?_eq_some hfind)
      have hp : p = (y, p.2) := by
        rcases p with ⟨a, b⟩
        cases hkey
        rfl
      rw [← hp]
      exact hmem
  · intro hmem
    have hne : pairs.reverse.find? (fun p => p.1 == y) ≠ none := by
      rw [Ne, List.find?_eq_none]
      intro hall
      exact absurd (by simp : ((y, s) : Nat × Snapshot).1 == y)
        (hall (y, s) (List.mem_reverse.mpr hmem))
    cases hfind : pairs.reverse.find? (fun p => p.1 == y) with
    | none => exact absurd hfind hne
    | some p =>
      have hkey : p.1 = y := by
        have := List.find?_some hfind
        simpa using this
      have hpm : p ∈ pairs := List.mem_reverse.mp (List.mem_of_find?_eq_some hfind)
      have hp2 : p.2 = s := by
        apply keys_nodup_val_eq pairs hnd _ hmem
        rw [← hkey]
        exact hpm
      unfold lookupYear
      rw [hfind]
      exact congrArg some hp2

/-- `per_year` lookup misses exactly the years that occur in no pair. -/
theorem lookupYear_eq_none_iff (pairs : List (Nat × Snapshot)) (y : Nat) :
    lookupYear pairs y = none ↔ y ∉ pairs.map Prod.fst := by
  constructor
  · intro h hc
    rcases List.mem_map.mp hc with ⟨p, hp, rfl⟩
    unfold lookupYear at h
    cases hfind : pairs.reverse.find? (fun q => q.1 == p.1) with
    | some q => rw [hfind] at h; cases h
    | none =>
      have hall := List.find?_eq_none.mp hfind
      exact absurd (by simp : (p.1 == p.1) = true)
        (hall p (List.mem_reverse.mpr hp))
  · intro hnm
    unfold lookupYear
    cases hfind : pairs.reverse.find? (fun q => q.1 == y) with
    | none => rfl
    | some q =>
      exfalso
      have hkey : q.1 = y := by simpa using List.find?_some hfind
      have hqm : q ∈ pairs := List.mem_reverse.mp (List.mem_of_find?_eq_some hfind)
      exact hnm (List.mem_map.mpr ⟨q, hqm, hkey⟩)

/-- Permutation invariance of `per_year` lookup under unique years. -/
theorem lookupYear_perm (pairs pairs2 : List (Nat × Snapshot))
    (hperm : pairs.Perm pairs2) (hnd : (pairs.map Prod.fst).Nodup) (y : Nat) :
    lookupYear pairs y = lookupYear pairs2 y := by
  have hnd2 : (pairs2.map Prod.fst).Nodup := ((hperm.map Prod.fst).nodup_iff).mp hnd
  cases h : lookupYear pairs y with
  | some s =>
    have hmem := (lookupYear_eq_some_iff pairs hnd y s).mp h
    exact ((lookupYear_eq_some_iff pairs2 hnd2 y s).mpr (hperm.mem_iff.mp hmem)).symm
  | none =>
    have hnm := (lookupYear_eq_none_iff pairs y).mp h
    exact ((lookupYear_eq_none_iff pairs2 y).mpr
      (fun hc => hnm (((hperm.map Prod.fst).mem_iff).mpr hc))).symm

/-- A non-`none` last element is a member. -/
theorem mem_of_getLast?_eq_some {α : Type} :
    ∀ {l : List α} {a : α}, l.getLast? = some a → a ∈ l := by
  intro l
  induction l with
  | nil => intro a h; cases h
  | cons x t ih =>
    intro a h
    cases t with
    | nil =>
      rw [List.getLast?_singleton] at h
      cases h
      exact List.mem_singleton_self x
    | cons y t' =>
      rw [List.getLast?_cons_cons] at h
      exact List.mem_cons_of_mem x (ih h)

/-- **C3, amended.**  What holds on the code: the canonical description
is the one of the chronologically latest present output year, and the
per-code entry is invariant under permuting the `(year, snapshot)` input
pairs *provided the supplied years are duplicate-free* (a year supplied
twice keeps the last pair, which is order-sensitive); and a present
year's description is recorded in `desc_overrides` iff it differs from
the canonical description *and both strings are non-empty*. -/
theorem c3_canonical_desc_amended (pairs pairs2 : List (Nat × Snapshot))
    (years : List Nat) (tol : ℚ) (code : String)
    (hperm : pairs.Perm pairs2) (hnd : (pairs.map Prod.fst).Nodup) :
    buildCodeEntry pairs years tol code = buildCodeEntry pairs2 years tol code ∧
    (∀ ly, (presentYearsG (getRow pairs code) years).getLast? = some ly →
      ∃ r, getRow pairs code ly = some r ∧
        (buildCodeEntry pairs years tol code).desc = r.desc) ∧
    (∀ y d, (y, d) ∈ (buildCodeEntry pairs years tol code).descOverrides ↔
      (y ∈ years ∧ ∃ r, getRow pairs code y = some r ∧ r.desc = d ∧ d ≠ "" ∧
        (buildCodeEntry pairs years tol code).desc ≠ "" ∧
        d ≠ (buildCodeEntry pairs years tol code).desc)) := by
  have hfun : getRow pairs code = getRow pairs2 code := by
    funext y
    unfold getRow
    rw [lookupYear_perm pairs pairs2 hperm hnd y]
  refine ⟨?_, ?_, ?_⟩
  · unfold buildCodeEntry
    rw [hfun]
  · intro ly hly
    have hmem : ly ∈ years.filter (fun y => (getRow pairs code y).isSome) :=
      mem_of_getLast?_eq_some hly
    have hpred : ((getRow pairs code ly).isSome : Bool) = true :=
      (List.mem_filter.mp hmem).2
    rcases Option.isSome_iff_exists.mp hpred with ⟨r, hr⟩
    refine ⟨r, hr, ?_⟩
    show canonicalDescG (getRow pairs code) years = r.desc
    simp only [canonicalDescG, hly, hr]
  · intro y d
    show (y, d) ∈ overridesListG (canonicalDescG (getRow pairs code) years)
        (getRow pairs code) years ↔ _
    rw [overridesListG, List.mem_filterMap]
    constructor
    · rintro ⟨a, ha, hfa⟩
      cases hg : getRow pairs code a with
      | none => simp only [hg] at hfa; cases hfa
      | some r =>
        simp only [hg] at hfa
        by_cases hcond : canonicalDescG (getRow pairs code) years ≠ "" ∧
            r.desc ≠ "" ∧ r.desc ≠ canonicalDescG (getRow pairs code) years
        · rw [if_pos hcond] at hfa
          injection hfa with hfa'
          have hay : a = y := congrArg Prod.fst hfa'
          have hrd : r.desc = d := congrArg Prod.snd hfa'
          subst hay
          exact ⟨ha, r, hg, hrd, hrd ▸ hcond.2.1, hcond.1, hrd ▸ hcond.2.2⟩
        · rw [if_neg hcond] at hfa
          cases hfa
    · rintro ⟨hy, r, hgr, hrd, hd1, hc1, hdc⟩
      refine ⟨y, hy, ?_⟩
      simp only [hgr]
      rw [if_pos ⟨hc1, hrd ▸ hd1, hrd ▸ hdc⟩, hrd]

/-- **C3, witness.**  Swapping the two supplied year pairs leaves the
entry unchanged, and the canonical description is the 2020 (latest
present) one. -/
theorem c3_witness :
    buildCodeEntry [(2019, [("A", brec1)]), (2020, [("A", cx2)])]
        [2019, 2020] 1 "A" =
      buildCodeEntry [(2020, [("A", cx2)]), (2019, [("A", brec1)])]
        [2019, 2020] 1 "A" ∧
    (buildCodeEntry [(2019, [("A", brec1)]), (2020, [("A", cx2)])]
      [2019, 2020] 1 "A").desc = cx2.desc := by
  have h := c3_canonical_desc_amended
    [(2019, [("A", brec1)]), (2020, [("A", cx2)])]
    [(2020, [("A", cx2)]), (2019, [("A", brec1)])]
    [2019, 2020] 1 "A" (List.Perm.swap _ _ _) (by decide)
  refine ⟨h.1, ?_⟩
  obtain ⟨r, hr, hdesc⟩ := h.2.1 2020 (by decide)
  have hconc : getRow [(2019, [("A", brec1)]), (2020, [("A", cx2)])] "A" 2020 =
      some cx2 := by decide
  rw [hconc] at hr
  injection hr with hr'
  rw [hdesc, hr']

/-- A code absent from every output year leaves the status column all
`null`. -/
theorem statusListAux_all_none (g : Nat → Option YearRecord) (tol : ℚ)
    (prev : Option YearRecord) :
    ∀ ys : List Nat, (∀ y ∈ ys, g y = none) →
      statusListAux g tol prev ys = ys.map (fun _ => none) := by
  intro ys
  induction ys with
  | nil => intro _; rfl
  | cons y0 ys ih =>
    intro habs
    simp only [statusListAux, habs y0 (by simp), List.map_cons]
    rw [ih (fun y hy => habs y (by simp [hy]))]

/-- **C10.**  A code present only in snapshots of years outside the
requested output range still gets an entry in `codes` (and is counted in
`total_codes`, which equals the number of distinct codes), with empty
canonical description, empty `desc_overrides`, and all four numeric
columns and the status column entirely `null`. -/
theorem c10_out_of_range_code (pairs : List (Nat × Snapshot)) (years : List Nat)
    (tol : ℚ) (code : String)
    (hc : code ∈ allCodes pairs)
    (habs : ∀ y ∈ years, getRow pairs code y = none) :
    (code, buildCodeEntry pairs years tol code) ∈ timelineCodes pairs years tol ∧
    code ∈ (timelineCodes pairs years tol).map Prod.fst ∧
    buildCodeEntry pairs years tol code =
      { desc := "", descOverrides := [],
        work_rvu := years.map fun _ => none,
        pe_rvu_fac := years.map fun _ => none,
        pe_rvu_nonfac := years.map fun _ => none,
        mp_rvu := years.map fun _ => none,
        status := years.map fun _ => none } ∧
    totalCodes pairs years tol = (allCodes pairs).length := by
  have hsorted : code ∈ sortedAllCodes pairs :=
    (List.mergeSort_perm (allCodes pairs) (fun a b => a ≤ b)).mem_iff.mpr hc
  have hmem : (code, buildCodeEntry pairs years tol code) ∈
      timelineCodes pairs years tol :=
    List.mem_map.mpr ⟨code, hsorted, rfl⟩
  have hpres : presentYearsG (getRow pairs code) years = [] := by
    rw [presentYearsG, List.filter_eq_nil_iff]
    intro y hy
    simp [habs y hy]
  have h1 : canonicalDescG (getRow pairs code) years = "" := by
    unfold canonicalDescG
    rw [hpres]
    rfl
  have h2 : overridesListG "" (getRow pairs code) years = [] := by
    rw [overridesListG, List.filterMap_eq_nil_iff]
    intro y hy
    simp [habs y hy]
  have h3 : ∀ f : YearRecord → PFloat,
      valueList f (getRow pairs code) years = years.map (fun _ => none) := by
    intro f
    apply List.map_congr_left
    intro y hy
    simp [habs y hy]
  have h4 : statusListAux (getRow pairs code) tol none years =
      years.map (fun _ => none) :=
    statusListAux_all_none _ tol none years habs
  refine ⟨hmem, List.mem_map.mpr ⟨(code, buildCodeEntry pairs years tol code), hmem, rfl⟩,
    ?_, ?_⟩
  · show buildEntryG (getRow pairs code) years tol = _
    unfold buildEntryG
    simp only [h1, h2, h3, h4]
  · show (timelineCodes pairs years tol).length = _
    rw [timelineCodes, List.length_map]
    exact (List.mergeSort_perm (allCodes pairs) (fun a b => a ≤ b)).length_eq

/-- **C10, witness.**  Code `"Z"` appears only in a 2018 snapshot; with
output years 2019-2020 its entry is fully `null` with empty
descriptions. -/
theorem c10_witness :
    buildCodeEntry [(2018, [("Z", brec1)]), (2020, [("A", brec2)])]
        [2019, 2020] 1 "Z" =
      { desc := "", descOverrides := [], work_rvu := [none, none],
        pe_rvu_fac := [none, none], pe_rvu_nonfac := [none, none],
        mp_rvu := [none, none], status := [none, none] } := by
  have h := (c10_out_of_range_code [(2018, [("Z", brec1)]), (2020, [("A", brec2)])]
    [2019, 2020] 1 "Z" (by decide) (by decide)).2.2.1
  exact h.trans (by decide)

/-- **C6, counterexample.**  The claim's "all four numeric components …
finite" is false of the code: `_coerce_float` passes non-finite numbers
straight through, so a snapshot JSON carrying `Infinity` (which CPython's
`json.load` accepts) yields a normalized YearRecord whose work component
is `inf` — not finite. -/
theorem c6_counterexample :
    validateYearSnapshot (.obj [("A", .obj [("desc", .str "d"),
        ("work_rvu", .num .inf), ("pe_rvu_fac", .num (.fin 0)),
        ("pe_rvu_nonfac", .num (.fin 0)), ("mp_rvu", .num (.fin 0))])]) =
      .ok [("A", { desc := "d", work_rvu := .inf, pe_rvu_fac := .fin 0,
                   pe_rvu_nonfac := .fin 0, mp_rvu := .fin 0 })] ∧
    PFloat.isFinite .inf = false :=
  ⟨rfl, rfl⟩

/-- **C6, amended.**  What holds of the code: after snapshot
normalization a kept row always carries all four numeric components
*present* (never `null`) as total values of `safe_float` — which yields
`0.0` for an unresolved column, a too-short row, or an unparseable
cell — and on the timeline side `_coerce_float` maps JSON `null` (and
the `dict.get` miss sentinel) to `0.0`.  Finiteness, however, is *not*
guaranteed: the final conjuncts show `_coerce_float` passing JSON
`Infinity`/`NaN` values, and strings parsing to `inf`, straight through
into the record. -/
theorem c6_year_record_invariant :
    (∀ row : List String, rvuSafeFloatAt row none = 0) ∧
    (∀ (row : List String) (j : Nat), row[j]? = none →
      rvuSafeFloatAt row (some j) = 0) ∧
    (∀ (row : List String) (j : Nat) (cell : String), row[j]? = some cell →
      parseSignedFloat (cleanNumeric (pyStrip cell)).data = none →
      rvuSafeFloatAt row (some j) = 0) ∧
    (∀ (cols : RvuCols) (acc : List (String × RvuRec)) (row : List String),
      cols.cpt < row.length →
      pyStrip (row.getD cols.cpt "") ≠ "" →
      rvuArtifact (pyStrip (row.getD cols.cpt "")) = false →
      processRvuRow cols acc row =
        dictInsert acc (pyStrip (row.getD cols.cpt ""))
          { desc := safeStrAt row cols.desc
            work_rvu := rvuSafeFloatAt row cols.work
            pe_rvu_fac := rvuSafeFloatAt row cols.peFac
            pe_rvu_nonfac := rvuSafeFloatAt row cols.peNonfac
            mp_rvu := rvuSafeFloatAt row cols.mp }) ∧
    (coerceFloat (some .null) = some (.fin 0) ∧ coerceFloat none = some (.fin 0)) ∧
    (coerceFloat (some (.num .inf)) = some .inf ∧
     coerceFloat (some (.num .nan)) = some .nan ∧
     coerceFloat (some (.str "inf")) = some .inf ∧
     pyFloatOfString "inf" = some .inf) := by
  refine ⟨fun row => rfl, ?_, ?_, ?_, ⟨rfl, rfl⟩, rfl, rfl, by decide, by decide⟩
  · intro row j h
    simp [rvuSafeFloatAt, h]
  · intro row j cell h hp
    by_cases hv : cleanNumeric (pyStrip cell) = ""
    · simp [rvuSafeFloatAt, h, hv]
    · simp [rvuSafeFloatAt, h, hv, hp]
  · intro cols acc row hlen hcode hart
    unfold processRvuRow
    have hne : ¬(pyStrip (row.getD cols.cpt "") = "" ∨
        rvuArtifact (pyStrip (row.getD cols.cpt "")) = true) := by
      rintro (hc | hc)
      · exact hcode hc
      · rw [hart] at hc; cases hc
    rw [if_neg (by omega), if_neg hne]

/-- **C6, witness.**  An unparseable work cell defaults to `0.0` and the
row is kept, with out-of-range and unresolved columns also defaulting. -/
theorem c6_witness :
    rvuSafeFloatAt ["99213", "Visit", "abc"] (some 2) = 0 ∧
    processRvuRow rvuColsW [] ["99213", "Visit", "abc"] =
      [("99213", { desc := "Visit", work_rvu := 0, pe_rvu_fac := 0,
                   pe_rvu_nonfac := 0, mp_rvu := 0 })] := by
  constructor
  · exact c6_year_record_invariant.2.2.1 ["99213", "Visit", "abc"] 2 "abc"
      (by decide) (by decide)
  · have h := c6_year_record_invariant.2.2.2.1 rvuColsW [] ["99213", "Visit", "abc"]
      (by decide) (by decide) (by decide)
    exact h.trans (by decide)

/-- **C7.**  Numeric-cell cleaning keeps exactly digits, `.` and `-` in
both parsers; the same unparseable cell yields `0.0` in the RVU parser
but `None` in the GPCI parser; an RVU row whose code is valid is kept
regardless of its numeric cells, while a GPCI row with a missing or
unparseable work / practice-expense / malpractice index is dropped whole,
incrementing the skip counter and leaving the locality dict untouched. -/
theorem c7_numeric_parsing_asymmetry :
    (∀ (s : String) (c : Char), c ∈ (cleanNumeric s).data ↔
      (c ∈ s.data ∧ (isDigitB c = true ∨ c = '.' ∨ c = '-'))) ∧
    (∀ (row : List String) (j : Nat) (cell : String), row[j]? = some cell →
      parseSignedFloat (cleanNumeric (pyStrip cell)).data = none →
      rvuSafeFloatAt row (some j) = 0 ∧ gpciSafeFloatAt row (some j) = none) ∧
    (∀ (cols : RvuCols) (acc : List (String × RvuRec)) (row : List String),
      cols.cpt < row.length →
      pyStrip (row.getD cols.cpt "") ≠ "" →
      rvuArtifact (pyStrip (row.getD cols.cpt "")) = false →
      ∃ rec : RvuRec, processRvuRow cols acc row =
        dictInsert acc (pyStrip (row.getD cols.cpt "")) rec) ∧
    (∀ (cols : GpciCols) (m : List (String × GpciRec)) (k : Nat) (row : List String),
      row ≠ [] →
      safeStrAt row (some cols.locNum) ≠ "" →
      safeStrAt row (some cols.locName) ≠ "" →
      (cols.state.isSome = true → gpciStateCell cols row ≠ "" ∧
        normalizeHeader (gpciStateCell cols row) ≠ "state") →
      (gpciSafeFloatAt row (some cols.work) = none ∨
       gpciSafeFloatAt row (some cols.pe) = none ∨
       gpciSafeFloatAt row (some cols.mp) = none) →
      processGpciRow cols (m, k) row = (m, k + 1)) := by
  refine ⟨?_, ?_, ?_, ?_⟩
  · intro s c
    show c ∈ (s.data.filter _) ↔ _
    rw [List.mem_filter]
    simp [Bool.or_eq_true, or_assoc]
  · intro row j cell h hp
    constructor
    · by_cases hv : cleanNumeric (pyStrip cell) = ""
      · simp [rvuSafeFloatAt, h, hv]
      · simp [rvuSafeFloatAt, h, hv, hp]
    · by_cases hv : cleanNumeric (pyStrip cell) = ""
      · simp [gpciSafeFloatAt, h, hv]
      · simp [gpciSafeFloatAt, h, hv, hp]
  · intro cols acc row hlen hcode hart
    refine ⟨{ desc := safeStrAt row cols.desc
              work_rvu := rvuSafeFloatAt row cols.work
              pe_rvu_fac := rvuSafeFloatAt row cols.peFac
              pe_rvu_nonfac := rvuSafeFloatAt row cols.peNonfac
              mp_rvu := rvuSafeFloatAt row cols.mp }, ?_⟩
    unfold processRvuRow
    have hne : ¬(pyStrip (row.getD cols.cpt "") = "" ∨
        rvuArtifact (pyStrip (row.getD cols.cpt "")) = true) := by
      rintro (hc | hc)
      · exact hcode hc
      · rw [hart] at hc; cases hc
    rw [if_neg (by omega), if_neg hne]
  · intro cols m k row hrow hln hlm hstate hbad
    unfold processGpciRow
    rw [if_neg hrow, if_neg (by simp [hln, hlm]),
      if_neg (fun hc => (hstate hc.1).1 hc.2),
      if_neg (fun hc => (hstate hc.1).2 hc.2)]
    cases hw : gpciSafeFloatAt row (some cols.work) with
    | none =>
      cases hpe : gpciSafeFloatAt row (some cols.pe) with
      | none =>
        cases hmp : gpciSafeFloatAt row (some cols.mp) with
        | none => simp only [hw, hpe, hmp]
        | some mp => simp only [hw, hpe, hmp]
      | some pe =>
        cases hmp : gpciSafeFloatAt row (some cols.mp) with
        | none => simp only [hw, hpe, hmp]
        | some mp => simp only [hw, hpe, hmp]
    | some w =>
      cases hpe : gpciSafeFloatAt row (some cols.pe) with
      | none =>
        cases hmp : gpciSafeFloatAt row (some cols.mp) with
        | none => simp only [hw, hpe, hmp]
        | some mp => simp only [hw, hpe, hmp]
      | some pe =>
        cases hmp : gpciSafeFloatAt row (some cols.mp) with
        | none => simp only [hw, hpe, hmp]
        | some mp =>
          exfalso
          rcases hbad with h | h | h
          · rw [h] at hw; cases hw
          · rw [h] at hpe; cases hpe
          · rw [h] at hmp; cases hmp

/-- **C7, witness.**  A GPCI row with a valid locality number and name
but a blank practice-expense cell is dropped with the skip counter
incremented, while the same unparseable text in an RVU numeric cell just
defaults to zero. -/
theorem c7_witness :
    processGpciRow gpciColsW ([], 0) ["01", "Alaska", "1", "", "1"] = ([], 1) ∧
    rvuSafeFloatAt ["1", "x"] (some 1) = 0 := by
  constructor
  · exact c7_numeric_parsing_asymmetry.2.2.2 gpciColsW [] 0
      ["01", "Alaska", "1", "", "1"] (by decide) (by decide) (by decide)
      (by decide) (Or.inr (Or.inl (by decide)))
  · exact (c7_numeric_parsing_asymmetry.2.1 ["1", "x"] 1 "x"
      (by decide) (by decide)).1

/-- **C2, witness.**  With the work component differing by exactly the
default tolerance and descriptions equal, two consecutive present years
yield `"existing"` on the later year. -/
theorem c2_witness :
    ((buildCodeEntry [(2019, [("A", brec1)]), (2020, [("A", brec2)])]
        [2019, 2020] 1 "A").status)[1]? = some (some Status.existing) := by
  obtain ⟨st, hslot, hex, -⟩ :=
    (c2_tolerance_boundary [(2019, [("A", brec1)]), (2020, [("A", brec2)])]
      [2019, 2020] 1 "A" 1 2020 brec1 brec2
      (by decide) (by decide) (by decide) (by decide)).1
  rw [hslot, hex.mpr (by norm_num [nearlyEqual, brec1, brec2])]

/-- Updating one key of a dict only changes that key's lookup. -/
theorem dictGet_dictInsert {α : Type} (l : List (String × α)) (k k' : String) (v : α) :
    dictGet (dictInsert l k v) k' = if k = k' then some v else dictGet l k' := by
  induction l with
  | nil =>
    by_cases h : k = k' <;> simp [dictInsert, dictGet, List.find?_cons, h]
  | cons a t ih =>
    by_cases ha : a.1 = k
    · rcases a with ⟨a1, a2⟩
      subst ha
      by_cases h : a1 = k' <;>
        simp [dictInsert, dictGet, List.find?_cons, h]
    · rcases a with ⟨a1, a2⟩
      by_cases h1 : a1 = k'
      · subst h1
        have hk : k ≠ a1 := fun hc => ha hc.symm
        simp [dictInsert, dictGet, List.find?_cons, ha, hk]
      · by_cases h : k = k' <;>
          simpa [dictInsert, dictGet, List.find?_cons, ha, h1, h] using ih

/-- A member of an updated dict is the new binding or an old member. -/
theorem mem_dictInsert {α : Type} :
    ∀ {l : List (String × α)} {k : String} {v : α} {p : String × α},
      p ∈ dictInsert l k v → p = (k, v) ∨ p ∈ l := by
  intro l
  induction l with
  | nil =>
    intro k v p hp
    simp [dictInsert] at hp
    exact Or.inl hp
  | cons a t ih =>
    intro k v p hp
    by_cases ha : a.1 = k
    · rcases a with ⟨a1, a2⟩
      subst ha
      simp only [dictInsert, if_pos rfl] at hp
      rcases List.mem_cons.mp hp with h | h
      · exact Or.inl h
      · exact Or.inr (List.mem_cons_of_mem _ h)
    · rcases a with ⟨a1, a2⟩
      simp only [dictInsert, if_neg ha] at hp
      rcases List.mem_cons.mp hp with h | h
      · exact Or.inr (h ▸ List.mem_cons_self _ _)
      · rcases ih h with h' | h'
        · exact Or.inl h'
        · exact Or.inr (List.mem_cons_of_mem _ h')

/-- Peeling one raw row off the last-valid-occurrence search. -/
theorem lastWins_cons (c : String) (v : JValue) (rows : List (String × JValue))
    (k : String) :
    lastWins ((c, v) :: rows) k =
      (lastWins rows k).or
        (if pyStrip c ≠ "" ∧ pyUpper (pyStrip c) = k then rowCleanOpt v else none) := by
  unfold lastWins
  rw [List.reverse_cons, List.findSome?_append]
  congr 1
  cases hf : (if pyStrip c ≠ "" ∧ pyUpper (pyStrip c) = k then rowCleanOpt v else none) <;>
    simp [List.findSome?_cons, hf]

/-- Upper-casing keeps a string non-empty. -/
theorem pyUpper_ne_empty (s : String) (h : s ≠ "") : pyUpper s ≠ "" := by
  intro hc
  apply h
  have hdata : s.data.map asciiUpper = [] := congrArg String.data hc
  have hnil : s.data = [] := List.map_eq_nil_iff.mp hdata
  cases s with
  | mk l =>
    have : l = [] := hnil
    rw [this]

/-- The row loop of `_validate_year_snapshot`, characterized: every key
of the result is the trimmed upper-cased form of a non-blank raw key (or
was already in the accumulator), and every lookup returns the record of
the last valid occurrence of that cleaned key, falling back to the
accumulator. -/
theorem validateAux_sound :
    ∀ (rows : List (String × JValue)) (acc cleaned : List (String × YearRecord)),
      validateAux rows acc = .ok cleaned →
      (∀ k rec, (k, rec) ∈ cleaned →
        (∃ raw v, (raw, v) ∈ rows ∧ k = pyUpper (pyStrip raw) ∧ pyStrip raw ≠ "") ∨
        (k, rec) ∈ acc) ∧
      (∀ k, dictGet cleaned k = (lastWins rows k).or (dictGet acc k)) := by
  intro rows
  induction rows with
  | nil =>
    intro acc cleaned h
    have hac : acc = cleaned := by
      unfold validateAux at h
      injection h
    subst hac
    refine ⟨fun k rec hm => Or.inr hm, fun k => ?_⟩
    have : lastWins [] k = none := rfl
    rw [this, Option.none_or]
  | cons cv rows ih =>
    rcases cv with ⟨c, v⟩
    intro acc cleaned h
    unfold validateAux at h
    by_cases hs : pyStrip c = ""
    · rw [if_pos hs] at h
      obtain ⟨ih1, ih2⟩ := ih acc cleaned h
      constructor
      · intro k rec hm
        rcases ih1 k rec hm with ⟨raw, v', hmem, hk, hne⟩ | hacc
        · exact Or.inl ⟨raw, v', List.mem_cons_of_mem _ hmem, hk, hne⟩
        · exact Or.inr hacc
      · intro k
        rw [ih2 k, lastWins_cons]
        have hcond : (if pyStrip c ≠ "" ∧ pyUpper (pyStrip c) = k then rowCleanOpt v
            else none) = none := by
          rw [if_neg]
          rintro ⟨hne, -⟩
          exact hne hs
        rw [hcond, Option.or_none]
    · rw [if_neg hs] at h
      cases hcv : rowCleanOpt v with
      | some rec0 =>
        simp only [hcv] at h
        obtain ⟨ih1, ih2⟩ := ih (dictInsert acc (pyUpper (pyStrip c)) rec0) cleaned h
        constructor
        · intro k rec hm
          rcases ih1 k rec hm with ⟨raw, v', hmem, hk, hne⟩ | hacc
          · exact Or.inl ⟨raw, v', List.mem_cons_of_mem _ hmem, hk, hne⟩
          · rcases mem_dictInsert hacc with heq | hacc'
            · have hk : k = pyUpper (pyStrip c) := congrArg Prod.fst heq
              exact Or.inl ⟨c, v, List.mem_cons_self _ _, hk, hs⟩
            · exact Or.inr hacc'
        · intro k
          rw [ih2 k, lastWins_cons, dictGet_dictInsert, Option.or_assoc]
          congr 1
          by_cases hk : pyUpper (pyStrip c) = k
          · rw [if_pos hk, if_pos ⟨hs, hk⟩, hcv]
            rfl
          · rw [if_neg hk, if_neg (fun hc' => hk hc'.2), Option.none_or]
      | none =>
        simp only [hcv] at h
        by_cases hrr : rowRaises v = true
        · rw [if_pos hrr] at h
          cases h
        · rw [if_neg hrr] at h
          obtain ⟨ih1, ih2⟩ := ih acc cleaned h
          constructor
          · intro k rec hm
            rcases ih1 k rec hm with ⟨raw, v', hmem, hk, hne⟩ | hacc
            · exact Or.inl ⟨raw, v', List.mem_cons_of_mem _ hmem, hk, hne⟩
            · exact Or.inr hacc
          · intro k
            rw [ih2 k, lastWins_cons]
            have hcond : (if pyStrip c ≠ "" ∧ pyUpper (pyStrip c) = k then rowCleanOpt v
                else none) = none := by
              by_cases hcnd : pyStrip c ≠ "" ∧ pyUpper (pyStrip c) = k
              · rw [if_pos hcnd, hcv]
              · rw [if_neg hcnd]
            rw [hcond, Option.or_none]

/-- **C8.**  Every key of a validated YearSnapshot is the trimmed,
upper-cased form of a non-blank source key (in particular non-empty),
and looking a cleaned code up returns the record of the **last**
occurrence of that code among the source rows that produce a record. -/
theorem c8_snapshot_keys (data : List (String × JValue))
    (cleaned : List (String × YearRecord))
    (h : validateYearSnapshot (.obj data) = .ok cleaned) :
    (∀ k rec, (k, rec) ∈ cleaned →
      ∃ raw v, (raw, v) ∈ data ∧ k = pyUpper (pyStrip raw) ∧
        pyStrip raw ≠ "" ∧ k ≠ "") ∧
    (∀ k, dictGet cleaned k = lastWins data k) := by
  have h' : validateAux data [] = .ok cleaned := h
  obtain ⟨h1, h2⟩ := validateAux_sound data [] cleaned h'
  constructor
  · intro k rec hm
    rcases h1 k rec hm with ⟨raw, v, hmem, hk, hne⟩ | habs
    · exact ⟨raw, v, hmem, hk, hne, hk ▸ pyUpper_ne_empty _ hne⟩
    · cases habs
  · intro k
    have hgoal := h2 k
    have hemp : dictGet ([] : List (String × YearRecord)) k = none := rfl
    rw [hemp, Option.or_none] at hgoal
    exact hgoal

/-- **C8, witness.**  The keys `" a "` and `"A"` collide after cleaning;
validation keeps the record of the last occurrence under the cleaned
key `"A"`. -/
theorem c8_witness :
    dictGet [("A", c8rec)] "A" = lastWins c8data "A" ∧
    (∃ raw v, (raw, v) ∈ c8data ∧ ("A" : String) = pyUpper (pyStrip raw) ∧
      pyStrip raw ≠ "" ∧ ("A" : String) ≠ "") := by
  have h := c8_snapshot_keys c8data [("A", c8rec)] (by rfl)
  exact ⟨h.2 "A", h.1 "A" c8rec (by simp)⟩

end RVU
